import Mathlib

/-!
Verification development for the render-graph transient-resource subsystem of
the vgfw repository (src/vgfw.hpp, namespace vgfw::renderer::framegraph).

The C++ code is shallowly embedded: device objects (Texture* / Buffer*) are
modelled as natural-number identities handed out by a fresh counter, float
idle timers are modelled as exact rationals, std::unordered_map is modelled
as an association list with unique keys, and std::vector push_back / back /
pop_back become append / getLast? / dropLast.  Calls into RenderContext
(createTexture2D, createTexture3D, createBuffer, setupSampler, destroy) are
recorded in event logs carried inside the state.
-/

set_option autoImplicit false

namespace VGFW

/-- Word size modulus for std::size_t arithmetic (64-bit). -/
def U64 : Nat := 2 ^ 64

/-- Embedding of vgfw::utils::hashCombine for one value:
seed ^= std::hash(v) + 0x9e3779b9 + (seed << 6) + (seed >> 2), computed in
64-bit size_t arithmetic.  std::hash of an integral, boolean or enum value is
the value itself (identity hash), so the argument v is the raw field value. -/
def hashCombine (seed v : Nat) : Nat :=
  seed ^^^ ((v % U64 + 0x9e3779b9 + seed * 64 + seed / 4) % U64)

/-- Folding hashCombine over a field list, starting from seed 0, as done by
the std::hash specialisations in vgfw.hpp. -/
def hashFields (fields : List Nat) : Nat :=
  fields.foldl hashCombine 0

/-- Embedding of vgfw::renderer::Extent2D. -/
structure Extent2D where
  width : Nat := 0
  height : Nat := 0
deriving DecidableEq, Repr

/-- Embedding of vgfw::renderer::framegraph::WrapMode. -/
inductive WrapMode
  | eClampToEdge
  | eClampToOpaqueBlack
  | eClampToOpaqueWhite
deriving DecidableEq, Repr

/-- Underlying C++ enum value of a WrapMode (declared values 0, 1, 2). -/
def WrapMode.toNat : WrapMode → Nat
  | .eClampToEdge => 0
  | .eClampToOpaqueBlack => 1
  | .eClampToOpaqueWhite => 2

/-- Embedding of vgfw::renderer::TexelFilter. -/
inductive TexelFilter
  | eNearest
  | eLinear
deriving DecidableEq, Repr

/-- Underlying GLenum value of a TexelFilter (GL_NEAREST, GL_LINEAR). -/
def TexelFilter.toNat : TexelFilter → Nat
  | .eNearest => 0x2600
  | .eLinear => 0x2601

/-- Embedding of vgfw::renderer::MipmapMode. -/
inductive MipmapMode
  | eNone
  | eNearest
  | eLinear
deriving DecidableEq, Repr

/-- Embedding of vgfw::renderer::SamplerAddressMode. -/
inductive SamplerAddressMode
  | eRepeat
  | eMirroredRepeat
  | eClampToEdge
  | eClampToBorder
  | eMirrorClampToEdge
deriving DecidableEq, Repr

/-- Embedding of vgfw::renderer::CompareOp. -/
inductive CompareOp
  | eNever
  | eLess
  | eEqual
  | eLessOrEqual
  | eGreater
  | eNotEqual
  | eGreaterOrEqual
  | eAlways
deriving DecidableEq, Repr

/-- Embedding of glm::vec4, used for sampler border colors; components are
modelled as exact rationals (the code only ever stores 0 and 1). -/
structure Vec4 where
  x : Rat := 0
  y : Rat := 0
  z : Rat := 0
  w : Rat := 0
deriving DecidableEq, Repr

/-- Embedding of vgfw::renderer::framegraph::FrameGraphTexture::Desc.
The PixelFormat enum is modelled by its underlying GLenum value (a Nat):
no claim depends on individual format constants, only on equality and on the
identity hash of the underlying value. -/
structure FrameGraphTexture.Desc where
  extent : Extent2D := {}
  depth : Nat := 0
  numMipLevels : Nat := 1
  layers : Nat := 0
  format : Nat := 0
  shadowSampler : Bool := false
  wrap : WrapMode := .eClampToEdge
  filter : TexelFilter := .eLinear
deriving DecidableEq, Repr

/-- Embedding of vgfw::renderer::framegraph::FrameGraphBuffer::Desc.
GLsizeiptr size is modelled as a Nat (sizes are non-negative). -/
structure FrameGraphBuffer.Desc where
  size : Nat := 0
deriving DecidableEq, Repr

/-- Embedding of the std::hash specialisation for FrameGraphTexture::Desc:
hashCombine over extent.width, extent.height, depth, numMipLevels, layers,
format, shadowSampler, wrap, filter. -/
def hashTextureDesc (d : FrameGraphTexture.Desc) : Nat :=
  hashFields [d.extent.width, d.extent.height, d.depth, d.numMipLevels,
    d.layers, d.format, cond d.shadowSampler 1 0, d.wrap.toNat, d.filter.toNat]

/-- Embedding of the std::hash specialisation for FrameGraphBuffer::Desc:
hashCombine over the single field size. -/
def hashBufferDesc (d : FrameGraphBuffer.Desc) : Nat :=
  hashFields [d.size]

/-- Embedding of vgfw::renderer::SamplerInfo (fields set by acquireTexture). -/
structure SamplerInfo where
  minFilter : TexelFilter := .eNearest
  mipmapMode : MipmapMode := .eLinear
  magFilter : TexelFilter := .eLinear
  addressModeS : SamplerAddressMode := .eRepeat
  addressModeT : SamplerAddressMode := .eRepeat
  addressModeR : SamplerAddressMode := .eRepeat
  maxAnisotropy : Rat := 1
  compareOperator : Option CompareOp := none
  borderColor : Vec4 := {}
deriving DecidableEq, Repr

/-- Embedding of the sampler configuration block inside
TransientResources::acquireTexture: the wrap hint selects the address mode
and border color, the filter hint sets min and mag filters, the mipmap mode
is eNearest when there is more than one mip level and eNone otherwise, and a
shadow sampler gets the eLessOrEqual compare operator. -/
def samplerInfoFor (d : FrameGraphTexture.Desc) : SamplerInfo :=
  let addressMode : SamplerAddressMode :=
    match d.wrap with
    | .eClampToEdge => .eClampToEdge
    | .eClampToOpaqueBlack => .eClampToBorder
    | .eClampToOpaqueWhite => .eClampToBorder
  let borderColor : Vec4 :=
    match d.wrap with
    | .eClampToEdge => {}
    | .eClampToOpaqueBlack => { x := 0, y := 0, z := 0, w := 1 }
    | .eClampToOpaqueWhite => { x := 1, y := 1, z := 1, w := 1 }
  { minFilter := d.filter
    mipmapMode := if d.numMipLevels > 1 then .eNearest else .eNone
    magFilter := d.filter
    addressModeS := addressMode
    addressModeT := addressMode
    addressModeR := addressMode
    maxAnisotropy := 1
    compareOperator := if d.shadowSampler then some .eLessOrEqual else none
    borderColor := borderColor }

/-- Record of a texture-creating RenderContext call made by acquireTexture:
createTexture3D(extent, depth, format) when the descriptor has depth > 0,
createTexture2D(extent, format, numMipLevels, layers) otherwise. -/
inductive TextureCreate
  | texture3D (extent : Extent2D) (depth : Nat) (format : Nat)
  | texture2D (extent : Extent2D) (format : Nat) (numMipLevels : Nat) (layers : Nat)
deriving DecidableEq, Repr

/-- Embedding of TransientResources::ResourceEntry: a pooled device object
together with its idle-time accumulator (float life modelled as a rational). -/
structure ResourceEntry where
  resource : Nat
  life : Rat
deriving DecidableEq, Repr

/-- Embedding of TransientResources::ResourcePool (std::vector of entries). -/
abbrev ResourcePool := List ResourceEntry

/-- Embedding of std::unordered_map from descriptor hash to ResourcePool, as
an association list with unique keys. -/
abbrev PoolMap := List (Nat × ResourcePool)

/-- Lookup of operator[] read semantics: the bucket stored under a hash key,
or the empty bucket when the key is absent. -/
def PoolMap.getBucket : PoolMap → Nat → ResourcePool
  | [], _ => []
  | (k, v) :: rest, h => if k = h then v else PoolMap.getBucket rest h

/-- Store of operator[] write semantics: replace the bucket stored under the
key, inserting the key when absent. -/
def PoolMap.setBucket : PoolMap → Nat → ResourcePool → PoolMap
  | [], h, b => [(h, b)]
  | (k, v) :: rest, h, b =>
    if k = h then (h, b) :: rest else (k, v) :: PoolMap.setBucket rest h b

/-- Embedding of the state of a TransientResources object.  Fields nextId,
texCreated, bufCreated and destroyed are ghost instrumentation: nextId models
pointer identity of heap-allocated device objects, the logs record the
RenderContext calls performed. -/
structure TransientResources where
  nextId : Nat := 0
  textures : List Nat := []
  buffers : List Nat := []
  texturePools : PoolMap := []
  bufferPools : PoolMap := []
  texCreated : List (Nat × TextureCreate × SamplerInfo) := []
  bufCreated : List (Nat × Nat) := []
  destroyed : List Nat := []
deriving DecidableEq, Repr

/-- Embedding of TransientResources::acquireTexture: hash the descriptor and
look at its bucket; if the bucket is empty, create a device texture (3D when
depth > 0, 2D otherwise), configure its sampler from the descriptor hints,
own it in m_Textures and return it; otherwise pop and return the last free
entry of the bucket.  Note that operator[] default-inserts the bucket. -/
def TransientResources.acquireTexture (s : TransientResources)
    (desc : FrameGraphTexture.Desc) : Nat × TransientResources :=
  let h := hashTextureDesc desc
  let pool := s.texturePools.getBucket h
  match pool.getLast? with
  | none =>
    let create :=
      if desc.depth > 0 then
        TextureCreate.texture3D desc.extent desc.depth desc.format
      else
        TextureCreate.texture2D desc.extent desc.format desc.numMipLevels desc.layers
    let ptr := s.nextId
    (ptr, { s with
      nextId := ptr + 1
      textures := s.textures ++ [ptr]
      texturePools := s.texturePools.setBucket h pool
      texCreated := s.texCreated ++ [(ptr, create, samplerInfoFor desc)] })
  | some e =>
    (e.resource, { s with texturePools := s.texturePools.setBucket h pool.dropLast })

/-- Embedding of TransientResources::releaseTexture: push the device object
into the bucket of the descriptor hash with idle time 0. -/
def TransientResources.releaseTexture (s : TransientResources)
    (desc : FrameGraphTexture.Desc) (texture : Nat) : TransientResources :=
  let h := hashTextureDesc desc
  { s with texturePools :=
      s.texturePools.setBucket h (s.texturePools.getBucket h ++ [⟨texture, 0⟩]) }

/-- Embedding of TransientResources::acquireBuffer: hash the descriptor; if
the bucket is empty, create a device buffer of the descriptor size, own it in
m_Buffers and return it; otherwise pop and return the last free entry. -/
def TransientResources.acquireBuffer (s : TransientResources)
    (desc : FrameGraphBuffer.Desc) : Nat × TransientResources :=
  let h := hashBufferDesc desc
  let pool := s.bufferPools.getBucket h
  match pool.getLast? with
  | none =>
    let ptr := s.nextId
    (ptr, { s with
      nextId := ptr + 1
      buffers := s.buffers ++ [ptr]
      bufferPools := s.bufferPools.setBucket h pool
      bufCreated := s.bufCreated ++ [(ptr, desc.size)] })
  | some e =>
    (e.resource, { s with bufferPools := s.bufferPools.setBucket h pool.dropLast })

/-- Embedding of TransientResources::releaseBuffer. -/
def TransientResources.releaseBuffer (s : TransientResources)
    (desc : FrameGraphBuffer.Desc) (buffer : Nat) : TransientResources :=
  let h := hashBufferDesc desc
  { s with bufferPools :=
      s.bufferPools.setBucket h (s.bufferPools.getBucket h ++ [⟨buffer, 0⟩]) }

/-- Eviction threshold kMaxIdleTime of framegraph::heartbeat (1 second). -/
def kMaxIdleTime : Rat := 1

/-- Result of one heartbeat visit of a free entry: idleTime += dt. -/
def tickEntry (dt : Rat) (e : ResourceEntry) : ResourceEntry :=
  ⟨e.resource, e.life + dt⟩

/-- Entries of a bucket surviving one heartbeat visit: idle time incremented
by dt, entries whose idle time reached kMaxIdleTime removed. -/
def processBucket (dt : Rat) (b : ResourcePool) : ResourcePool :=
  (b.map (tickEntry dt)).filter (fun e => e.life < kMaxIdleTime)

/-- Device objects of a bucket destroyed by one heartbeat visit: those whose
incremented idle time satisfies idleTime >= kMaxIdleTime. -/
def deadOfBucket (dt : Rat) (b : ResourcePool) : List Nat :=
  ((b.map (tickEntry dt)).filter (fun e => kMaxIdleTime ≤ e.life)).map (·.resource)

/-- Embedding of framegraph::heartbeat over one pool map: a bucket that is
empty when visited is erased from the map; otherwise each of its entries ages
by dt and entries at or past the threshold are destroyed, the bucket itself
staying in the map even when this leaves it empty.  Returns the new map and
the list of destroyed device objects. -/
def heartbeatPools (dt : Rat) : PoolMap → PoolMap × List Nat
  | [] => ([], [])
  | (h, b) :: rest =>
    let r := heartbeatPools dt rest
    if b.isEmpty then r
    else ((h, processBucket dt b) :: r.1, deadOfBucket dt b ++ r.2)

/-- Embedding of TransientResources::update: heartbeat over the texture pools
and then over the buffer pools, destroying aged-out device objects via the
RenderContext and pruning the destroyed objects from m_Textures / m_Buffers
(the remove_if over invalidated objects). -/
def TransientResources.update (s : TransientResources) (dt : Rat) : TransientResources :=
  let tex := heartbeatPools dt s.texturePools
  let destroyedAfterTex := s.destroyed ++ tex.2
  let buf := heartbeatPools dt s.bufferPools
  let destroyedAll := destroyedAfterTex ++ buf.2
  { s with
    texturePools := tex.1
    bufferPools := buf.1
    textures := s.textures.filter (fun t => ¬ t ∈ destroyedAfterTex)
    buffers := s.buffers.filter (fun b => ¬ b ∈ destroyedAll)
    destroyed := destroyedAll }

/-- Embedding of the TransientResources destructor: it destroys every device
object owned in m_Textures and m_Buffers (and nothing else). -/
def TransientResources.destructorDestroys (s : TransientResources) : List Nat :=
  s.textures ++ s.buffers

/-- Decision procedure for whether a device object id occurs anywhere in a
TransientResources state (owned lists, free buckets, or the destroyed log). -/
def TransientResources.mentionsB (s : TransientResources) (x : Nat) : Bool :=
  s.textures.contains x || s.buffers.contains x ||
  s.texturePools.any (fun p => p.2.any (fun e => e.resource == x)) ||
  s.bufferPools.any (fun p => p.2.any (fun e => e.resource == x)) ||
  s.destroyed.contains x

/-- Key list of a pool map; std::unordered_map keeps keys unique. -/
def PoolMap.keys (m : PoolMap) : List Nat := m.map Prod.fst

/-- Calls a client can make on a TransientResources object within and across
frames (the external interface exercised by FrameGraphTexture::create and
destroy, FrameGraphBuffer::create and destroy, and the per-frame update). -/
inductive Op
  | acquireTex (d : FrameGraphTexture.Desc)
  | releaseTex (d : FrameGraphTexture.Desc) (r : Nat)
  | acquireBuf (d : FrameGraphBuffer.Desc)
  | releaseBuf (d : FrameGraphBuffer.Desc) (r : Nat)
  | update (dt : Rat)
deriving DecidableEq, Repr

/-- Trace state: the pool state plus the ghost list of live device objects,
that is objects handed out by an acquire and not yet passed back to a
release.  The live list is instrumentation; it mirrors the pointers client
code is currently holding. -/
structure TraceState where
  pool : TransientResources := {}
  live : List Nat := []
deriving DecidableEq, Repr

/-- One client call applied to a trace state. -/
def stepOp (t : TraceState) : Op → TraceState
  | .acquireTex d =>
    let a := t.pool.acquireTexture d
    { pool := a.2, live := t.live ++ [a.1] }
  | .releaseTex d r => { pool := t.pool.releaseTexture d r, live := t.live.erase r }
  | .acquireBuf d =>
    let a := t.pool.acquireBuffer d
    { pool := a.2, live := t.live ++ [a.1] }
  | .releaseBuf d r => { pool := t.pool.releaseBuffer d r, live := t.live.erase r }
  | .update dt => { pool := t.pool.update dt, live := t.live }

/-- Running a call sequence from a freshly constructed TransientResources. -/
def runOps (ops : List Op) : TraceState := ops.foldl stepOp {}

/-- Wellformedness of a call sequence from a given state: every release
passes an object that is currently live (previously acquired, not yet
released), as the executor contract requires. -/
def wfFrom (t : TraceState) : List Op → Bool
  | [] => true
  | op :: rest =>
    (match op with
     | .releaseTex _ r => t.live.contains r
     | .releaseBuf _ r => t.live.contains r
     | _ => true) && wfFrom (stepOp t op) rest

/-- Wellformedness of a call sequence from the initial state. -/
def wfTrace (ops : List Op) : Bool := wfFrom {} ops

/-- Multiset of device objects stored in one free bucket. -/
def bucketMS (b : ResourcePool) : Multiset Nat :=
  (b.map ResourceEntry.resource : List Nat)

/-- Multiset of device objects stored across all buckets of a pool map. -/
def PoolMap.resMS : PoolMap → Multiset Nat
  | [] => 0
  | (_, b) :: rest => bucketMS b + PoolMap.resMS rest

/-- Multiset of device objects that are either live or sitting in a free
bucket of either pool map. -/
def heldMS (t : TraceState) : Multiset Nat :=
  (t.live : Multiset Nat) + t.pool.texturePools.resMS + t.pool.bufferPools.resMS

/-- State invariant of the pool: no device object occurs twice among the
live objects and the free buckets, and every such object was allocated by
the fresh counter. -/
def TraceInv (t : TraceState) : Prop :=
  (heldMS t).Nodup ∧ ∀ x ∈ heldMS t, x < t.pool.nextId

/-- Modelled from the spec: the PassNode record of the external fg
FrameGraph library (not under src/), per spec sections 3 and 4.1 — the read,
write and create lists of a pass plus its side-effect flag. -/
structure PassNode where
  creates : List Nat := []
  reads : List Nat := []
  writes : List Nat := []
  hasSideEffect : Bool := false
deriving DecidableEq, Repr

/-- Descriptor of a virtual resource: texture or buffer shape. -/
inductive ResDesc
  | texture (d : FrameGraphTexture.Desc)
  | buffer (d : FrameGraphBuffer.Desc)
deriving DecidableEq, Repr

/-- Modelled from the spec: a ResourceNode of the external fg library (not
under src/), per spec section 3 — descriptor, producing pass index, and the
imported flag carrying the caller-owned device object when present. -/
structure ResNode where
  creator : Nat
  desc : ResDesc
  importedId : Option Nat := none
deriving DecidableEq, Repr

/-- Modelled from the spec: the recorded per-frame graph of the external fg
library (not under src/): the pass list in recording order and the resource
node table indexed by handle. -/
structure FrameGraph where
  passes : List PassNode := []
  nodes : List ResNode := []
deriving DecidableEq, Repr

/-- Producing pass of a resource node (its creator or importer). -/
def FrameGraph.producer (g : FrameGraph) (r : Nat) : Option Nat :=
  (g.nodes[r]?).map ResNode.creator

/-- Whether some already-kept pass reads a resource produced by pass p. -/
def producesForKept (g : FrameGraph) (s : List Nat) (p : Nat) : Bool :=
  s.any (fun q =>
    (((g.passes[q]?).map PassNode.reads).getD []).any
      (fun r => g.producer r == some p))

/-- One round of the backward culling traversal: add every pass that
produces a resource read by an already-kept pass. -/
def keptStep (g : FrameGraph) (s : List Nat) : List Nat :=
  s ++ (List.range g.passes.length).filter
    (fun p => !s.contains p && producesForKept g s p)

/-- Modelled from the spec, section 4.2: iterated culling traversal starting
from the passes marked side-effect and walking backward through read lists
to producing passes. -/
def keptIter (g : FrameGraph) : Nat → List Nat
  | 0 => (List.range g.passes.length).filter
      (fun p => ((g.passes[p]?).map PassNode.hasSideEffect).getD false)
  | n + 1 => keptStep g (keptIter g n)

/-- The kept passes after compilation: the culling fixpoint, reached after
at most one round per pass. -/
def keptPasses (g : FrameGraph) : List Nat := keptIter g g.passes.length

/-- Existence of a path (via reads) from pass p forward to a side-effect
pass: either p is itself marked side-effect, or some pass q that reads a
resource produced by p has such a path.  This is the reachability notion of
the culling-correctness property. -/
inductive Reaches (g : FrameGraph) : Nat → Prop
  | side (p : Nat) (ps : PassNode) (hget : g.passes[p]? = some ps)
      (hse : ps.hasSideEffect = true) : Reaches g p
  | read (p q r : Nat) (ps : PassNode) (hq : Reaches g q)
      (hget : g.passes[q]? = some ps) (hr : r ∈ ps.reads)
      (hprod : g.producer r = some p) : Reaches g p

/-- Whether a pass references (reads or writes) a resource node. -/
def refsRes (ps : PassNode) (r : Nat) : Bool :=
  ps.reads.contains r || ps.writes.contains r

/-- Modelled from the spec, section 4.2: the last pass of the lifetime
interval of a resource — the last kept pass that reads or writes it, with
the creating pass as the lower bound of the interval. -/
def FrameGraph.lastUse (g : FrameGraph) (r : Nat) : Nat :=
  ((keptPasses g).filter
      (fun q => ((g.passes[q]?).map (fun ps => refsRes ps r)).getD false)).foldl
    max (((g.nodes[r]?).map ResNode.creator).getD 0)

/-- Executor state: the pool, the materialised handle-to-device-object map,
and the list of passes whose execute closure has been invoked. -/
structure ExecState where
  res : TransientResources := {}
  materialized : List (Nat × Nat) := []
  executed : List Nat := []
deriving DecidableEq, Repr

/-- Modelled from the spec, section 4.3: materialising one resource node —
an imported node resolves to the caller-owned device object without touching
the Pool, any other node is acquired from the transient pool per its
descriptor. -/
def materializeNode (g : FrameGraph) (st : ExecState) (r : Nat) : ExecState :=
  match g.nodes[r]? with
  | none => st
  | some n =>
    match n.importedId with
    | some ext => { st with materialized := st.materialized ++ [(r, ext)] }
    | none =>
      match n.desc with
      | .texture d =>
        let a := st.res.acquireTexture d
        { st with res := a.2, materialized := st.materialized ++ [(r, a.1)] }
      | .buffer d =>
        let a := st.res.acquireBuffer d
        { st with res := a.2, materialized := st.materialized ++ [(r, a.1)] }

/-- Modelled from the spec, section 4.3: releasing one resource node at the
end of its lifetime interval — skipped for imported resources, otherwise the
materialised device object goes back to the pool under its descriptor. -/
def releaseNode (g : FrameGraph) (st : ExecState) (r : Nat) : ExecState :=
  match g.nodes[r]? with
  | none => st
  | some n =>
    if n.importedId.isSome then st
    else
      match st.materialized.find? (fun p => p.1 == r) with
      | none => st
      | some m =>
        match n.desc with
        | .texture d => { st with res := st.res.releaseTexture d m.2 }
        | .buffer d => { st with res := st.res.releaseBuffer d m.2 }

/-- Modelled from the spec, section 4.3: executing one pass — a culled pass
is skipped entirely; a kept pass first materialises every resource whose
lifetime interval begins here (the nodes it creates), then has its execute
closure invoked, then releases every resource whose interval ends here. -/
def execPass (g : FrameGraph) (st : ExecState) (i : Nat) : ExecState :=
  if (keptPasses g).contains i then
    let begins := (List.range g.nodes.length).filter
      (fun r => ((g.nodes[r]?).map (fun n => n.creator == i)).getD false)
    let st1 := begins.foldl (materializeNode g) st
    let st2 := { st1 with executed := st1.executed ++ [i] }
    let ends := (List.range g.nodes.length).filter (fun r => g.lastUse r == i)
    ends.foldl (releaseNode g) st2
  else st

/-- Modelled from the spec, section 4.3: the executor iterates the passes in
recording order, restricted to the kept subset. -/
def FrameGraph.execute (g : FrameGraph) (res : TransientResources) : ExecState :=
  (List.range g.passes.length).foldl (execPass g) { res := res }

/-- Safety of an external (imported) device object with respect to an
executor state over graph g: the pool state nowhere mentions it, the fresh
counter is already past it, and no non-imported node is materialised to it. -/
def ExtFree (g : FrameGraph) (ext : Nat) (st : ExecState) : Prop :=
  st.res.mentionsB ext = false ∧ ext < st.res.nextId ∧
  ∀ p ∈ st.materialized, ∀ n, g.nodes[p.1]? = some n → n.importedId = none → p.2 ≠ ext

/-- Concrete texture descriptor used by witnesses. -/
def demoTexDesc : FrameGraphTexture.Desc := {}

/-- Concrete buffer descriptor used by witnesses. -/
def demoBufDesc : FrameGraphBuffer.Desc := { size := 64 }

/-- History invariant of the texture pools: every free entry was pushed by
some releaseTexture call of the trace whose descriptor hashes to the key of
the bucket holding the entry. -/
def TexFromRelease (ops : List Op) (m : PoolMap) : Prop :=
  ∀ p ∈ m, ∀ e ∈ p.2, ∃ d, Op.releaseTex d e.resource ∈ ops ∧ hashTextureDesc d = p.1

/-- History invariant of the buffer pools, mirror of TexFromRelease. -/
def BufFromRelease (ops : List Op) (m : PoolMap) : Prop :=
  ∀ p ∈ m, ∀ e ∈ p.2, ∃ d, Op.releaseBuf d e.resource ∈ ops ∧ hashBufferDesc d = p.1

/-- Executor invariant used for culling correctness: only kept passes have
been executed, and every materialised resource node has a kept creator. -/
def ExecInv (g : FrameGraph) (st : ExecState) : Prop :=
  (∀ i ∈ st.executed, i ∈ keptPasses g) ∧
  ∀ r ∈ st.materialized.map Prod.fst, ∀ n, g.nodes[r]? = some n →
    n.creator ∈ keptPasses g

/-- Concrete two-pass graph used by the culling witness: pass 0 creates a
texture nothing reads, pass 1 is a side-effect pass reading nothing. -/
def demoGraphCulled : FrameGraph :=
  { passes := [{ creates := [0] }, { hasSideEffect := true }]
    nodes := [{ creator := 0, desc := .texture demoTexDesc }] }

/-- Concrete graph used by the import witness: one side-effect pass creating
a single imported texture node with external device object 3. -/
def demoGraphImport : FrameGraph :=
  { passes := [{ creates := [0], hasSideEffect := true }]
    nodes := [{ creator := 0, desc := .texture demoTexDesc, importedId := some 3 }] }

/-- Concrete pool state used by the import witness. -/
def demoPoolState : TransientResources := { nextId := 5 }

end VGFW

namespace VGFW

theorem getBucket_setBucket_self (m : PoolMap) (h : Nat) (b : ResourcePool) :
    (m.setBucket h b).getBucket h = b := by
  induction m with
  | nil => simp [PoolMap.setBucket, PoolMap.getBucket]
  | cons q rest ih =>
    obtain ⟨k, v⟩ := q
    by_cases hk : k = h <;>
      simp [PoolMap.setBucket, PoolMap.getBucket, hk, ih]

theorem getBucket_setBucket_ne (m : PoolMap) (h h2 : Nat) (b : ResourcePool)
    (hne : h2 ≠ h) : (m.setBucket h b).getBucket h2 = m.getBucket h2 := by
  have hne2 : ¬ h = h2 := fun hh => hne hh.symm
  induction m with
  | nil => simp [PoolMap.setBucket, PoolMap.getBucket, hne2]
  | cons q rest ih =>
    obtain ⟨k, v⟩ := q
    by_cases hk : k = h
    · subst hk
      simp [PoolMap.setBucket, PoolMap.getBucket, hne2]
    · simp [PoolMap.setBucket, PoolMap.getBucket, hk, ih]

theorem mem_setBucket {m : PoolMap} {h : Nat} {b : ResourcePool}
    {p : Nat × ResourcePool} (hp : p ∈ m.setBucket h b) : p ∈ m ∨ p = (h, b) := by
  induction m with
  | nil => simp [PoolMap.setBucket] at hp; simp [hp]
  | cons q rest ih =>
    obtain ⟨k, v⟩ := q
    by_cases hk : k = h
    · subst hk
      simp [PoolMap.setBucket] at hp
      rcases hp with hp | hp
      · right; simp [hp]
      · left; simp [hp]
    · simp [PoolMap.setBucket, hk] at hp
      rcases hp with hp | hp
      · left; simp [hp]
      · rcases ih hp with hp2 | hp2
        · left; simp [hp2]
        · right; exact hp2

theorem entries_getBucket {m : PoolMap} {h : Nat} {e : ResourceEntry}
    (he : e ∈ m.getBucket h) : ∃ p ∈ m, p.1 = h ∧ e ∈ p.2 := by
  induction m with
  | nil => simp [PoolMap.getBucket] at he
  | cons q rest ih =>
    obtain ⟨k, v⟩ := q
    by_cases hk : k = h
    · subst hk
      simp [PoolMap.getBucket] at he
      exact ⟨(k, v), by simp, rfl, he⟩
    · simp [PoolMap.getBucket, hk] at he
      obtain ⟨p, hp, hp1, hp2⟩ := ih he
      exact ⟨p, by simp [hp], hp1, hp2⟩

theorem bucketMS_append (b1 b2 : ResourcePool) :
    bucketMS (b1 ++ b2) = bucketMS b1 + bucketMS b2 := by
  simp [bucketMS]

theorem bucketMS_push (b : ResourcePool) (e : ResourceEntry) :
    bucketMS (b ++ [e]) = bucketMS b + {e.resource} := by
  simp only [bucketMS, List.map_append, List.map_cons, List.map_nil]
  rfl

theorem bucketMS_getLast {b : ResourcePool} {e : ResourceEntry}
    (hl : b.getLast? = some e) :
    bucketMS b = bucketMS b.dropLast + {e.resource} := by
  rcases List.eq_nil_or_concat b with hb | ⟨b0, a, hb⟩
  · subst hb; simp at hl
  · subst hb
    simp only [List.concat_eq_append] at hl ⊢
    simp at hl
    subst hl
    simp [bucketMS_push]

theorem resMS_setBucket (m : PoolMap) (h : Nat) (b : ResourcePool) :
    (m.setBucket h b).resMS + bucketMS (m.getBucket h)
      = m.resMS + bucketMS b := by
  induction m with
  | nil => simp [PoolMap.setBucket, PoolMap.getBucket, PoolMap.resMS, bucketMS]
  | cons q rest ih =>
    obtain ⟨k, v⟩ := q
    by_cases hk : k = h
    · subst hk
      simp only [PoolMap.setBucket, PoolMap.getBucket, if_pos rfl, PoolMap.resMS]
      ac_rfl
    · simp only [PoolMap.setBucket, PoolMap.getBucket, if_neg hk, PoolMap.resMS]
      calc bucketMS v + (PoolMap.setBucket rest h b).resMS
            + bucketMS (PoolMap.getBucket rest h)
          = bucketMS v + ((PoolMap.setBucket rest h b).resMS
            + bucketMS (PoolMap.getBucket rest h)) := by ac_rfl
        _ = bucketMS v + (PoolMap.resMS rest + bucketMS b) := by rw [ih]
        _ = bucketMS v + PoolMap.resMS rest + bucketMS b := by ac_rfl

theorem bucketMS_getBucket_le (m : PoolMap) (h : Nat) :
    bucketMS (m.getBucket h) ≤ m.resMS := by
  induction m with
  | nil => simp [PoolMap.getBucket, PoolMap.resMS, bucketMS]
  | cons q rest ih =>
    obtain ⟨k, v⟩ := q
    by_cases hk : k = h
    · subst hk
      simp only [PoolMap.getBucket, if_pos rfl, PoolMap.resMS]
      exact le_add_right le_rfl
    · simp only [PoolMap.getBucket, if_neg hk, PoolMap.resMS]
      exact le_add_left ih

end VGFW

namespace VGFW

theorem acquireTexture_eq_none {s : TransientResources} {d : FrameGraphTexture.Desc}
    (hb : (s.texturePools.getBucket (hashTextureDesc d)).getLast? = none) :
    s.acquireTexture d = (s.nextId,
      { s with nextId := s.nextId + 1,
               textures := s.textures ++ [s.nextId],
               texturePools := s.texturePools.setBucket (hashTextureDesc d)
                 (s.texturePools.getBucket (hashTextureDesc d)),
               texCreated := s.texCreated ++ [(s.nextId,
                 if d.depth > 0 then TextureCreate.texture3D d.extent d.depth d.format
                 else TextureCreate.texture2D d.extent d.format d.numMipLevels d.layers,
                 samplerInfoFor d)] }) := by
  simp only [TransientResources.acquireTexture, hb]

theorem acquireTexture_eq_some {s : TransientResources} {d : FrameGraphTexture.Desc}
    {e : ResourceEntry}
    (hb : (s.texturePools.getBucket (hashTextureDesc d)).getLast? = some e) :
    s.acquireTexture d = (e.resource,
      { s with texturePools := s.texturePools.setBucket (hashTextureDesc d)
                 (s.texturePools.getBucket (hashTextureDesc d)).dropLast }) := by
  simp only [TransientResources.acquireTexture, hb]

theorem acquireBuffer_eq_none {s : TransientResources} {d : FrameGraphBuffer.Desc}
    (hb : (s.bufferPools.getBucket (hashBufferDesc d)).getLast? = none) :
    s.acquireBuffer d = (s.nextId,
      { s with nextId := s.nextId + 1,
               buffers := s.buffers ++ [s.nextId],
               bufferPools := s.bufferPools.setBucket (hashBufferDesc d)
                 (s.bufferPools.getBucket (hashBufferDesc d)),
               bufCreated := s.bufCreated ++ [(s.nextId, d.size)] }) := by
  simp only [TransientResources.acquireBuffer, hb]

theorem acquireBuffer_eq_some {s : TransientResources} {d : FrameGraphBuffer.Desc}
    {e : ResourceEntry}
    (hb : (s.bufferPools.getBucket (hashBufferDesc d)).getLast? = some e) :
    s.acquireBuffer d = (e.resource,
      { s with bufferPools := s.bufferPools.setBucket (hashBufferDesc d)
                 (s.bufferPools.getBucket (hashBufferDesc d)).dropLast }) := by
  simp only [TransientResources.acquireBuffer, hb]

theorem releaseTexture_getBucket_self (s : TransientResources)
    (d : FrameGraphTexture.Desc) (r : Nat) :
    (s.releaseTexture d r).texturePools.getBucket (hashTextureDesc d)
      = s.texturePools.getBucket (hashTextureDesc d) ++ [⟨r, 0⟩] := by
  simp [TransientResources.releaseTexture, getBucket_setBucket_self]

theorem releaseBuffer_getBucket_self (s : TransientResources)
    (d : FrameGraphBuffer.Desc) (r : Nat) :
    (s.releaseBuffer d r).bufferPools.getBucket (hashBufferDesc d)
      = s.bufferPools.getBucket (hashBufferDesc d) ++ [⟨r, 0⟩] := by
  simp [TransientResources.releaseBuffer, getBucket_setBucket_self]

/-- Claim C1 (pool reuse round-trip): acquire a texture under descriptor d,
release it under d, then acquire under d again: the second acquire hands
back exactly the device object of the first one, and performs no device
allocation (fresh counter, creation log and owned-texture list of the pool
are untouched); likewise for buffers. -/
theorem pool_reuse_roundtrip (s s1 s2 t t1 t2 : TransientResources)
    (r1 q1 : Nat) (d : FrameGraphTexture.Desc) (db : FrameGraphBuffer.Desc)
    (h1 : s.acquireTexture d = (r1, s1)) (h2 : s2 = s1.releaseTexture d r1)
    (h3 : t.acquireBuffer db = (q1, t1)) (h4 : t2 = t1.releaseBuffer db q1) :
    (s2.acquireTexture d).1 = r1
    ∧ (s2.acquireTexture d).2.nextId = s2.nextId
    ∧ (s2.acquireTexture d).2.texCreated = s2.texCreated
    ∧ (s2.acquireTexture d).2.textures = s2.textures
    ∧ (t2.acquireBuffer db).1 = q1
    ∧ (t2.acquireBuffer db).2.nextId = t2.nextId
    ∧ (t2.acquireBuffer db).2.bufCreated = t2.bufCreated
    ∧ (t2.acquireBuffer db).2.buffers = t2.buffers := by
  have hbt : (s2.texturePools.getBucket (hashTextureDesc d)).getLast?
      = some ⟨r1, 0⟩ := by
    subst h2
    rw [releaseTexture_getBucket_self]
    simp
  have hbb : (t2.bufferPools.getBucket (hashBufferDesc db)).getLast?
      = some ⟨q1, 0⟩ := by
    subst h4
    rw [releaseBuffer_getBucket_self]
    simp
  rw [acquireTexture_eq_some hbt, acquireBuffer_eq_some hbb]
  simp

/-- Witness for C1 at a concrete input: a fresh pool, the default texture
descriptor and the demo buffer descriptor. -/
theorem pool_reuse_roundtrip_witness :
    ((((({} : TransientResources).acquireTexture demoTexDesc).2.releaseTexture
        demoTexDesc (({} : TransientResources).acquireTexture demoTexDesc).1).acquireTexture
        demoTexDesc).1
      = (({} : TransientResources).acquireTexture demoTexDesc).1)
    ∧ ((((({} : TransientResources).acquireBuffer demoBufDesc).2.releaseBuffer
        demoBufDesc (({} : TransientResources).acquireBuffer demoBufDesc).1).acquireBuffer
        demoBufDesc).1
      = (({} : TransientResources).acquireBuffer demoBufDesc).1) := by
  have h := pool_reuse_roundtrip {} (({} : TransientResources).acquireTexture demoTexDesc).2
    ((({} : TransientResources).acquireTexture demoTexDesc).2.releaseTexture demoTexDesc
      (({} : TransientResources).acquireTexture demoTexDesc).1)
    {} (({} : TransientResources).acquireBuffer demoBufDesc).2
    ((({} : TransientResources).acquireBuffer demoBufDesc).2.releaseBuffer demoBufDesc
      (({} : TransientResources).acquireBuffer demoBufDesc).1)
    (({} : TransientResources).acquireTexture demoTexDesc).1
    (({} : TransientResources).acquireBuffer demoBufDesc).1
    demoTexDesc demoBufDesc rfl rfl rfl rfl
  exact ⟨h.1, h.2.2.2.2.1⟩

end VGFW

namespace VGFW

/-- Claim C5 (release resets the idle timer): releaseTexture(d, r) pushes r
into the bucket keyed by the hash of d with idle-time accumulator zero,
leaving every other bucket, the other pool map, the fresh counter, the
creation log and the destroyed log untouched; likewise releaseBuffer. -/
theorem release_resets_idle_timer (s : TransientResources)
    (d : FrameGraphTexture.Desc) (r : Nat)
    (db : FrameGraphBuffer.Desc) (rb : Nat) :
    ((s.releaseTexture d r).texturePools.getBucket (hashTextureDesc d)
        = s.texturePools.getBucket (hashTextureDesc d) ++ [⟨r, 0⟩])
    ∧ (∀ h2, h2 ≠ hashTextureDesc d →
        (s.releaseTexture d r).texturePools.getBucket h2
          = s.texturePools.getBucket h2)
    ∧ (s.releaseTexture d r).bufferPools = s.bufferPools
    ∧ (s.releaseTexture d r).nextId = s.nextId
    ∧ (s.releaseTexture d r).texCreated = s.texCreated
    ∧ (s.releaseTexture d r).destroyed = s.destroyed
    ∧ ((s.releaseBuffer db rb).bufferPools.getBucket (hashBufferDesc db)
        = s.bufferPools.getBucket (hashBufferDesc db) ++ [⟨rb, 0⟩])
    ∧ (∀ h2, h2 ≠ hashBufferDesc db →
        (s.releaseBuffer db rb).bufferPools.getBucket h2
          = s.bufferPools.getBucket h2)
    ∧ (s.releaseBuffer db rb).texturePools = s.texturePools
    ∧ (s.releaseBuffer db rb).nextId = s.nextId
    ∧ (s.releaseBuffer db rb).bufCreated = s.bufCreated
    ∧ (s.releaseBuffer db rb).destroyed = s.destroyed := by
  refine ⟨releaseTexture_getBucket_self s d r, ?_, rfl, rfl, rfl, rfl,
    releaseBuffer_getBucket_self s db rb, ?_, rfl, rfl, rfl, rfl⟩
  · intro h2 hne
    simp [TransientResources.releaseTexture, getBucket_setBucket_ne _ _ _ _ hne]
  · intro h2 hne
    simp [TransientResources.releaseBuffer, getBucket_setBucket_ne _ _ _ _ hne]

/-- Witness for C5 at a concrete input: fresh pool, demo descriptors,
device object 7, and the unrelated bucket key 0. -/
theorem release_resets_idle_timer_witness :
    (({} : TransientResources).releaseTexture demoTexDesc 7).texturePools.getBucket
        (hashTextureDesc demoTexDesc)
      = ({} : TransientResources).texturePools.getBucket (hashTextureDesc demoTexDesc)
        ++ [⟨7, 0⟩]
    ∧ (0 : Nat) ≠ hashTextureDesc demoTexDesc
    ∧ (({} : TransientResources).releaseTexture demoTexDesc 7).texturePools.getBucket 0
      = ({} : TransientResources).texturePools.getBucket 0 := by
  have h := release_resets_idle_timer {} demoTexDesc 7 demoBufDesc 9
  exact ⟨h.1, by decide, h.2.1 0 (by decide)⟩

theorem mem_of_getLast?_eq {α : Type} {l : List α} {a : α}
    (h : l.getLast? = some a) : a ∈ l := by
  have hm : a ∈ l.getLast? := by simp [h]
  obtain ⟨hne, heq⟩ := List.mem_getLast?_eq_getLast hm
  exact heq ▸ List.getLast_mem hne

/-- Claim C4 (acquire behaviour): acquireTexture(d) hashes d; a non-empty
bucket yields one of its pooled entries with no device creation and no
change to the fresh counter or the owned list; an empty bucket triggers
creation of a 3D texture when d.depth > 0 and otherwise a 2D texture with
the mip levels and layers of d, whose sampler is configured from the wrap,
filter, mip-count and shadow hints of d; acquireBuffer(d) likewise returns a
pooled entry or creates a buffer of d.size. -/
theorem acquire_behaviour (s : TransientResources) (d : FrameGraphTexture.Desc)
    (db : FrameGraphBuffer.Desc) :
    (s.texturePools.getBucket (hashTextureDesc d) = [] →
      (s.acquireTexture d).1 = s.nextId
      ∧ (s.acquireTexture d).2.texCreated = s.texCreated ++ [(s.nextId,
          (if d.depth > 0 then TextureCreate.texture3D d.extent d.depth d.format
           else TextureCreate.texture2D d.extent d.format d.numMipLevels d.layers),
          samplerInfoFor d)]
      ∧ (samplerInfoFor d).minFilter = d.filter
      ∧ (samplerInfoFor d).magFilter = d.filter
      ∧ (samplerInfoFor d).mipmapMode
          = (if d.numMipLevels > 1 then MipmapMode.eNearest else MipmapMode.eNone)
      ∧ (samplerInfoFor d).addressModeS
          = (match d.wrap with
             | WrapMode.eClampToEdge => SamplerAddressMode.eClampToEdge
             | WrapMode.eClampToOpaqueBlack => SamplerAddressMode.eClampToBorder
             | WrapMode.eClampToOpaqueWhite => SamplerAddressMode.eClampToBorder)
      ∧ (samplerInfoFor d).addressModeT = (samplerInfoFor d).addressModeS
      ∧ (samplerInfoFor d).addressModeR = (samplerInfoFor d).addressModeS
      ∧ (samplerInfoFor d).borderColor
          = (match d.wrap with
             | WrapMode.eClampToEdge => ({} : Vec4)
             | WrapMode.eClampToOpaqueBlack => { x := 0, y := 0, z := 0, w := 1 }
             | WrapMode.eClampToOpaqueWhite => { x := 1, y := 1, z := 1, w := 1 })
      ∧ (samplerInfoFor d).compareOperator
          = (if d.shadowSampler then some CompareOp.eLessOrEqual else none))
    ∧ (s.texturePools.getBucket (hashTextureDesc d) ≠ [] →
      (∃ e ∈ s.texturePools.getBucket (hashTextureDesc d),
        (s.acquireTexture d).1 = e.resource)
      ∧ (s.acquireTexture d).2.texCreated = s.texCreated
      ∧ (s.acquireTexture d).2.nextId = s.nextId
      ∧ (s.acquireTexture d).2.textures = s.textures)
    ∧ (s.bufferPools.getBucket (hashBufferDesc db) = [] →
      (s.acquireBuffer db).1 = s.nextId
      ∧ (s.acquireBuffer db).2.bufCreated = s.bufCreated ++ [(s.nextId, db.size)])
    ∧ (s.bufferPools.getBucket (hashBufferDesc db) ≠ [] →
      (∃ e ∈ s.bufferPools.getBucket (hashBufferDesc db),
        (s.acquireBuffer db).1 = e.resource)
      ∧ (s.acquireBuffer db).2.bufCreated = s.bufCreated
      ∧ (s.acquireBuffer db).2.nextId = s.nextId
      ∧ (s.acquireBuffer db).2.buffers = s.buffers) := by
  refine ⟨fun hb => ?_, fun hb => ?_, fun hb => ?_, fun hb => ?_⟩
  · have hn : (s.texturePools.getBucket (hashTextureDesc d)).getLast? = none := by
      simp [hb]
    rw [acquireTexture_eq_none hn]
    refine ⟨rfl, rfl, rfl, rfl, rfl, ?_, ?_, ?_, ?_, rfl⟩ <;>
      simp [samplerInfoFor] <;> cases d.wrap <;> simp
  · obtain ⟨e, he⟩ : ∃ e, (s.texturePools.getBucket (hashTextureDesc d)).getLast?
        = some e := by
      rcases hl : (s.texturePools.getBucket (hashTextureDesc d)).getLast? with _ | e
      · exact absurd (List.getLast?_eq_none_iff.mp hl) hb
      · exact ⟨e, rfl⟩
    rw [acquireTexture_eq_some he]
    exact ⟨⟨e, mem_of_getLast?_eq he, rfl⟩, rfl, rfl, rfl⟩
  · have hn : (s.bufferPools.getBucket (hashBufferDesc db)).getLast? = none := by
      simp [hb]
    rw [acquireBuffer_eq_none hn]
    exact ⟨rfl, rfl⟩
  · obtain ⟨e, he⟩ : ∃ e, (s.bufferPools.getBucket (hashBufferDesc db)).getLast?
        = some e := by
      rcases hl : (s.bufferPools.getBucket (hashBufferDesc db)).getLast? with _ | e
      · exact absurd (List.getLast?_eq_none_iff.mp hl) hb
      · exact ⟨e, rfl⟩
    rw [acquireBuffer_eq_some he]
    exact ⟨⟨e, mem_of_getLast?_eq he, rfl⟩, rfl, rfl, rfl⟩

/-- Witness for C4 at concrete inputs: an empty bucket on a fresh pool for
the creation path, and the state after a release for the reuse path. -/
theorem acquire_behaviour_witness :
    (({} : TransientResources).texturePools.getBucket (hashTextureDesc demoTexDesc) = [])
    ∧ ((({} : TransientResources).acquireTexture demoTexDesc).1
        = ({} : TransientResources).nextId)
    ∧ ((({} : TransientResources).releaseTexture demoTexDesc 7).texturePools.getBucket
          (hashTextureDesc demoTexDesc) ≠ [])
    ∧ (∃ e ∈ (({} : TransientResources).releaseTexture demoTexDesc 7).texturePools.getBucket
          (hashTextureDesc demoTexDesc),
        ((({} : TransientResources).releaseTexture demoTexDesc 7).acquireTexture
          demoTexDesc).1 = e.resource) := by
  refine ⟨by decide, ((acquire_behaviour {} demoTexDesc demoBufDesc).1 (by decide)).1,
    by decide, ?_⟩
  exact (((acquire_behaviour (({} : TransientResources).releaseTexture demoTexDesc 7)
    demoTexDesc demoBufDesc).2.1) (by decide)).1

end VGFW

namespace VGFW

/-- Claim C10 (bucketing keys): buffer descriptors hash on size alone, so
equal sizes share a bucket and a released buffer of size N is returned by an
immediately following acquireBuffer of any descriptor of size N with no new
allocation; texture descriptors hash on all their fields, and a texture
released under a descriptor with a different hash does not affect what an
acquire returns (interchange requires a hash match). -/
theorem buffer_pool_keyed_by_size (d1 d2 : FrameGraphBuffer.Desc)
    (t1 t2 : FrameGraphTexture.Desc) (s : TransientResources) (r : Nat) :
    (d1.size = d2.size → hashBufferDesc d1 = hashBufferDesc d2)
    ∧ (d1.size = d2.size →
        ((s.releaseBuffer d1 r).acquireBuffer d2).1 = r
        ∧ ((s.releaseBuffer d1 r).acquireBuffer d2).2.bufCreated = s.bufCreated
        ∧ ((s.releaseBuffer d1 r).acquireBuffer d2).2.nextId = s.nextId)
    ∧ (hashTextureDesc t1 ≠ hashTextureDesc t2 →
        ((s.releaseTexture t1 r).acquireTexture t2).1 = (s.acquireTexture t2).1) := by
  refine ⟨fun h => by simp [hashBufferDesc, h], fun h => ?_, fun hne => ?_⟩
  · have hh : hashBufferDesc d2 = hashBufferDesc d1 := by simp [hashBufferDesc, h]
    have hbuck : (s.releaseBuffer d1 r).bufferPools.getBucket (hashBufferDesc d2)
        = s.bufferPools.getBucket (hashBufferDesc d1) ++ [⟨r, 0⟩] := by
      rw [hh, releaseBuffer_getBucket_self]
    have hl : ((s.releaseBuffer d1 r).bufferPools.getBucket
        (hashBufferDesc d2)).getLast? = some ⟨r, 0⟩ := by
      rw [hbuck]; simp
    rw [acquireBuffer_eq_some hl]
    exact ⟨rfl, rfl, rfl⟩
  · have hbuck : (s.releaseTexture t1 r).texturePools.getBucket (hashTextureDesc t2)
        = s.texturePools.getBucket (hashTextureDesc t2) := by
      simp [TransientResources.releaseTexture,
        getBucket_setBucket_ne _ _ _ _ (Ne.symm hne)]
    rcases hl : (s.texturePools.getBucket (hashTextureDesc t2)).getLast? with _ | e
    · rw [acquireTexture_eq_none (by rw [hbuck]; exact hl),
        acquireTexture_eq_none hl]
      rfl
    · rw [acquireTexture_eq_some (show ((s.releaseTexture t1 r).texturePools.getBucket
          (hashTextureDesc t2)).getLast? = some e by rw [hbuck]; exact hl),
        acquireTexture_eq_some hl]

/-- Witness for C10 at concrete inputs: two buffer descriptors of size 64,
and two texture descriptors differing in format (whose hashes differ). -/
theorem buffer_pool_keyed_by_size_witness :
    (demoBufDesc.size = FrameGraphBuffer.Desc.size { size := 64 })
    ∧ ((({} : TransientResources).releaseBuffer demoBufDesc 7).acquireBuffer
        { size := 64 }).1 = 7
    ∧ hashTextureDesc demoTexDesc ≠ hashTextureDesc { format := 1 }
    ∧ ((({} : TransientResources).releaseTexture demoTexDesc 7).acquireTexture
        { format := 1 }).1
      = (({} : TransientResources).acquireTexture { format := 1 }).1 := by
  have h := buffer_pool_keyed_by_size demoBufDesc { size := 64 } demoTexDesc
    { format := 1 } {} 7
  exact ⟨by decide, (h.2.1 (by decide)).1, by decide, h.2.2 (by decide)⟩

end VGFW

namespace VGFW

theorem mem_heartbeatPools_fst {dt : Rat} {m : PoolMap} {p : Nat × ResourcePool}
    (hp : p ∈ (heartbeatPools dt m).1) :
    ∃ b, (p.1, b) ∈ m ∧ b ≠ [] ∧ p.2 = processBucket dt b := by
  induction m with
  | nil => simp [heartbeatPools] at hp
  | cons q rest ih =>
    obtain ⟨h, b⟩ := q
    by_cases hb : b = []
    · subst hb
      simp only [heartbeatPools, List.isEmpty_nil, if_pos rfl] at hp
      obtain ⟨b2, hb2, hne, hpr⟩ := ih hp
      exact ⟨b2, by simp [hb2], hne, hpr⟩
    · simp only [heartbeatPools, List.isEmpty_iff, if_neg hb, List.mem_cons] at hp
      rcases hp with hp | hp
      · exact ⟨b, by simp [show p.1 = h by rw [hp]], hb, by rw [hp]⟩
      · obtain ⟨b2, hb2, hne, hpr⟩ := ih hp
        exact ⟨b2, by simp [hb2], hne, hpr⟩

theorem heartbeatPools_fst_of_mem {dt : Rat} {m : PoolMap} {h : Nat}
    {b : ResourcePool} (hmem : (h, b) ∈ m) (hne : b ≠ []) :
    (h, processBucket dt b) ∈ (heartbeatPools dt m).1 := by
  induction m with
  | nil => simp at hmem
  | cons q rest ih =>
    obtain ⟨k, v⟩ := q
    rcases List.mem_cons.mp hmem with hq | hq
    · obtain ⟨hk, hv⟩ := Prod.mk.injEq .. ▸ hq
      subst hk; subst hv
      simp only [heartbeatPools, List.isEmpty_iff, if_neg hne]
      simp
    · by_cases hv : v = []
      · subst hv
        simp only [heartbeatPools, List.isEmpty_nil, if_pos rfl]
        exact ih hq
      · simp only [heartbeatPools, List.isEmpty_iff, if_neg hv]
        simp only [List.mem_cons]
        exact Or.inr (ih hq)

theorem mem_heartbeatPools_snd {dt : Rat} {m : PoolMap} {x : Nat}
    (hx : x ∈ (heartbeatPools dt m).2) :
    ∃ h b, (h, b) ∈ m ∧ x ∈ deadOfBucket dt b := by
  induction m with
  | nil => simp [heartbeatPools] at hx
  | cons q rest ih =>
    obtain ⟨h, b⟩ := q
    by_cases hb : b = []
    · subst hb
      simp only [heartbeatPools, List.isEmpty_nil, if_pos rfl] at hx
      obtain ⟨h2, b2, hb2, hx2⟩ := ih hx
      exact ⟨h2, b2, by simp [hb2], hx2⟩
    · simp only [heartbeatPools, List.isEmpty_iff, if_neg hb, List.mem_append] at hx
      rcases hx with hx | hx
      · exact ⟨h, b, by simp, hx⟩
      · obtain ⟨h2, b2, hb2, hx2⟩ := ih hx
        exact ⟨h2, b2, by simp [hb2], hx2⟩

theorem heartbeatPools_snd_of_mem {dt : Rat} {m : PoolMap} {h : Nat}
    {b : ResourcePool} {x : Nat} (hmem : (h, b) ∈ m)
    (hx : x ∈ deadOfBucket dt b) : x ∈ (heartbeatPools dt m).2 := by
  induction m with
  | nil => simp at hmem
  | cons q rest ih =>
    obtain ⟨k, v⟩ := q
    rcases List.mem_cons.mp hmem with hq | hq
    · obtain ⟨hk, hv⟩ := Prod.mk.injEq .. ▸ hq
      subst hk; subst hv
      have hbne : b ≠ [] := by
        intro hb
        subst hb
        simp [deadOfBucket] at hx
      simp only [heartbeatPools, List.isEmpty_iff, if_neg hbne, List.mem_append]
      exact Or.inl hx
    · by_cases hv : v = []
      · subst hv
        simp only [heartbeatPools, List.isEmpty_nil, if_pos rfl]
        exact ih hq
      · simp only [heartbeatPools, List.isEmpty_iff, if_neg hv, List.mem_append]
        exact Or.inr (ih hq)

theorem mem_deadOfBucket {dt : Rat} {b : ResourcePool} {x : Nat}
    (hx : x ∈ deadOfBucket dt b) :
    ∃ e ∈ b, e.resource = x ∧ kMaxIdleTime ≤ e.life + dt := by
  simp only [deadOfBucket, List.mem_map, List.mem_filter] at hx
  obtain ⟨e, ⟨⟨e0, he0, heq⟩, hle⟩, hres⟩ := hx
  refine ⟨e0, he0, ?_, ?_⟩
  · rw [← hres, ← heq]; rfl
  · have := heq ▸ (of_decide_eq_true hle)
    simpa [tickEntry] using this

theorem mem_processBucket {dt : Rat} {b : ResourcePool} {e : ResourceEntry}
    (he : e ∈ processBucket dt b) :
    ∃ e0 ∈ b, tickEntry dt e0 = e ∧ e.life < kMaxIdleTime := by
  simp only [processBucket, List.mem_filter, List.mem_map] at he
  obtain ⟨⟨e0, he0, heq⟩, hlt⟩ := he
  exact ⟨e0, he0, heq, of_decide_eq_true hlt⟩

theorem deadOfBucket_of_entry {dt : Rat} {b : ResourcePool} {e : ResourceEntry}
    (he : e ∈ b) (hle : kMaxIdleTime ≤ e.life + dt) :
    e.resource ∈ deadOfBucket dt b := by
  simp only [deadOfBucket, List.mem_map, List.mem_filter]
  refine ⟨tickEntry dt e, ⟨⟨e, he, rfl⟩, ?_⟩, rfl⟩
  simpa [tickEntry] using hle

theorem processBucket_of_entry {dt : Rat} {b : ResourcePool} {e : ResourceEntry}
    (he : e ∈ b) (hlt : e.life + dt < kMaxIdleTime) :
    tickEntry dt e ∈ processBucket dt b := by
  simp only [processBucket, List.mem_filter, List.mem_map]
  exact ⟨⟨e, he, rfl⟩, by simpa [tickEntry] using hlt⟩

end VGFW

namespace VGFW

theorem keys_nodup_unique {m : PoolMap} (hn : (PoolMap.keys m).Nodup)
    {h : Nat} {a c : ResourcePool} (ha : (h, a) ∈ m) (hc : (h, c) ∈ m) :
    a = c := by
  induction m with
  | nil => simp at ha
  | cons q rest ih =>
    obtain ⟨k, v⟩ := q
    simp only [PoolMap.keys, List.map_cons, List.nodup_cons] at hn
    obtain ⟨hk, hrest⟩ := hn
    rcases List.mem_cons.mp ha with h1 | h1 <;> rcases List.mem_cons.mp hc with h2 | h2
    · obtain ⟨_, hv1⟩ := Prod.mk.injEq .. ▸ h1
      obtain ⟨_, hv2⟩ := Prod.mk.injEq .. ▸ h2
      rw [hv1, hv2]
    · obtain ⟨hk1, _⟩ := Prod.mk.injEq .. ▸ h1
      exact absurd (hk1 ▸ List.mem_map_of_mem Prod.fst h2) hk
    · obtain ⟨hk2, _⟩ := Prod.mk.injEq .. ▸ h2
      exact absurd (hk2 ▸ List.mem_map_of_mem Prod.fst h1) hk
    · exact ih hrest h1 h2

theorem update_destroyed_eq (s : TransientResources) (dt : Rat) :
    (s.update dt).destroyed
      = s.destroyed ++ (heartbeatPools dt s.texturePools).2
          ++ (heartbeatPools dt s.bufferPools).2 := by
  simp [TransientResources.update]

theorem update_texturePools_eq (s : TransientResources) (dt : Rat) :
    (s.update dt).texturePools = (heartbeatPools dt s.texturePools).1 := by
  simp [TransientResources.update]

theorem update_bufferPools_eq (s : TransientResources) (dt : Rat) :
    (s.update dt).bufferPools = (heartbeatPools dt s.bufferPools).1 := by
  simp [TransientResources.update]

/-- Claim C2, amended (pool eviction at the threshold): during update(dt)
every visited free entry ages to life + dt and is destroyed exactly when the
aged idle time reaches or exceeds the 1-second threshold (the comparison is
idleTime >= kMaxIdleTime, not a strict one); an entry whose aged idle time
is still strictly below the threshold stays in its bucket with the
incremented timer. -/
theorem pool_eviction_at_threshold (s : TransientResources) (dt : Rat)
    (h : Nat) (b : ResourcePool) (e : ResourceEntry) :
    ((h, b) ∈ s.texturePools → e ∈ b →
      (kMaxIdleTime ≤ e.life + dt →
        e.resource ∈ (s.update dt).destroyed
        ∧ tickEntry dt e ∉ processBucket dt b)
      ∧ (e.life + dt < kMaxIdleTime →
        tickEntry dt e ∈ processBucket dt b
        ∧ (h, processBucket dt b) ∈ (s.update dt).texturePools))
    ∧ ((h, b) ∈ s.bufferPools → e ∈ b →
      (kMaxIdleTime ≤ e.life + dt →
        e.resource ∈ (s.update dt).destroyed
        ∧ tickEntry dt e ∉ processBucket dt b)
      ∧ (e.life + dt < kMaxIdleTime →
        tickEntry dt e ∈ processBucket dt b
        ∧ (h, processBucket dt b) ∈ (s.update dt).bufferPools)) := by
  have hnotin : kMaxIdleTime ≤ e.life + dt → tickEntry dt e ∉ processBucket dt b := by
    intro hle hc
    obtain ⟨e0, _, _, hlt⟩ := mem_processBucket hc
    simp only [tickEntry] at hlt
    exact absurd hlt (not_lt.mpr hle)
  refine ⟨fun hmem he => ⟨fun hle => ⟨?_, hnotin hle⟩, fun hlt => ⟨?_, ?_⟩⟩,
    fun hmem he => ⟨fun hle => ⟨?_, hnotin hle⟩, fun hlt => ⟨?_, ?_⟩⟩⟩
  · rw [update_destroyed_eq]
    exact List.mem_append.mpr (Or.inl (List.mem_append.mpr (Or.inr
      (heartbeatPools_snd_of_mem hmem (deadOfBucket_of_entry he hle)))))
  · exact processBucket_of_entry he hlt
  · rw [update_texturePools_eq]
    exact heartbeatPools_fst_of_mem hmem (List.ne_nil_of_mem he)
  · rw [update_destroyed_eq]
    exact List.mem_append.mpr (Or.inr
      (heartbeatPools_snd_of_mem hmem (deadOfBucket_of_entry he hle)))
  · exact processBucket_of_entry he hlt
  · rw [update_bufferPools_eq]
    exact heartbeatPools_fst_of_mem hmem (List.ne_nil_of_mem he)

/-- Counterexample to claim C2 as stated: a texture released with idle time
zero and then aged by a single update of exactly 1 second has accumulated
idle time 1, which does not exceed the 1-second threshold, yet the code
destroys it (the comparison is >=). -/
theorem pool_eviction_strict_counterexample :
    (5 : Nat) ∈ ((({} : TransientResources).releaseTexture demoTexDesc 5).update 1).destroyed
    ∧ ¬ ((0 : Rat) + 1 > kMaxIdleTime) := by
  constructor
  · norm_num [TransientResources.update, TransientResources.releaseTexture,
      heartbeatPools, processBucket, deadOfBucket, tickEntry, kMaxIdleTime,
      PoolMap.setBucket, PoolMap.getBucket]
  · norm_num [kMaxIdleTime]

/-- Witness for the amended C2 at a concrete input: the single released
entry of a fresh pool, aged by exactly the threshold. -/
theorem pool_eviction_at_threshold_witness :
    ((hashTextureDesc demoTexDesc, ([⟨5, 0⟩] : ResourcePool))
      ∈ (({} : TransientResources).releaseTexture demoTexDesc 5).texturePools)
    ∧ ((⟨5, 0⟩ : ResourceEntry) ∈ ([⟨5, 0⟩] : ResourcePool))
    ∧ kMaxIdleTime ≤ (⟨5, 0⟩ : ResourceEntry).life + 1
    ∧ (5 : Nat) ∈ ((({} : TransientResources).releaseTexture demoTexDesc 5).update 1).destroyed := by
  refine ⟨by decide, by decide, by norm_num [kMaxIdleTime], ?_⟩
  exact (((pool_eviction_at_threshold
    (({} : TransientResources).releaseTexture demoTexDesc 5) 1
    (hashTextureDesc demoTexDesc) [⟨5, 0⟩] ⟨5, 0⟩).1
    (by decide) (by decide)).1 (by norm_num [kMaxIdleTime])).1

/-- Claim C3, amended (bucket pruning is one heartbeat late): after
update(dt), every bucket still in the map was non-empty when the call
started (buckets empty at entry are erased), but a bucket emptied by this
very call can remain in the map empty; it is erased by the next update
call. -/
theorem bucket_pruning_next_heartbeat (s : TransientResources) (dt dt2 : Rat)
    (h : Nat) (b : ResourcePool) :
    ((h, b) ∈ (s.update dt).texturePools →
      ∃ b0, (h, b0) ∈ s.texturePools ∧ b0 ≠ [] ∧ b = processBucket dt b0)
    ∧ ((PoolMap.keys ((s.update dt).texturePools)).Nodup →
      (h, ([] : ResourcePool)) ∈ (s.update dt).texturePools →
      ∀ b2, (h, b2) ∉ ((s.update dt).update dt2).texturePools)
    ∧ ((h, b) ∈ (s.update dt).bufferPools →
      ∃ b0, (h, b0) ∈ s.bufferPools ∧ b0 ≠ [] ∧ b = processBucket dt b0)
    ∧ ((PoolMap.keys ((s.update dt).bufferPools)).Nodup →
      (h, ([] : ResourcePool)) ∈ (s.update dt).bufferPools →
      ∀ b2, (h, b2) ∉ ((s.update dt).update dt2).bufferPools) := by
  refine ⟨fun hmem => ?_, fun hn hmem b2 hc => ?_, fun hmem => ?_,
    fun hn hmem b2 hc => ?_⟩
  · rw [update_texturePools_eq] at hmem
    exact mem_heartbeatPools_fst hmem
  · rw [update_texturePools_eq ((s.update dt))] at hc
    obtain ⟨b0, hb0, hb0ne, _⟩ := mem_heartbeatPools_fst hc
    exact hb0ne (keys_nodup_unique hn hmem hb0).symm
  · rw [update_bufferPools_eq] at hmem
    exact mem_heartbeatPools_fst hmem
  · rw [update_bufferPools_eq ((s.update dt))] at hc
    obtain ⟨b0, hb0, hb0ne, _⟩ := mem_heartbeatPools_fst hc
    exact hb0ne (keys_nodup_unique hn hmem hb0).symm

/-- Counterexample to claim C3 as stated: after a single update call that
evicts the only entry of a bucket, the bucket is still present in the map
and empty. -/
theorem bucket_pruning_counterexample :
    (hashTextureDesc demoTexDesc, ([] : ResourcePool))
      ∈ ((({} : TransientResources).releaseTexture demoTexDesc 5).update 1).texturePools := by
  have h1 : ((({} : TransientResources).releaseTexture demoTexDesc 5).update 1).texturePools
      = [(hashTextureDesc demoTexDesc, [])] := by
    norm_num [TransientResources.update, TransientResources.releaseTexture,
      heartbeatPools, processBucket, deadOfBucket, tickEntry, kMaxIdleTime,
      PoolMap.setBucket, PoolMap.getBucket]
  rw [h1]
  simp

/-- Witness for the amended C3 at a concrete input: the bucket emptied by
the first update is erased by the second. -/
theorem bucket_pruning_next_heartbeat_witness :
    (PoolMap.keys (((({} : TransientResources).releaseTexture demoTexDesc 5).update 1).texturePools)).Nodup
    ∧ (hashTextureDesc demoTexDesc, ([] : ResourcePool))
      ∈ ((({} : TransientResources).releaseTexture demoTexDesc 5).update 1).texturePools
    ∧ (hashTextureDesc demoTexDesc, ([] : ResourcePool))
      ∉ (((({} : TransientResources).releaseTexture demoTexDesc 5).update 1).update 1).texturePools := by
  have h1 : ((({} : TransientResources).releaseTexture demoTexDesc 5).update 1).texturePools
      = [(hashTextureDesc demoTexDesc, [])] := by
    norm_num [TransientResources.update, TransientResources.releaseTexture,
      heartbeatPools, processBucket, deadOfBucket, tickEntry, kMaxIdleTime,
      PoolMap.setBucket, PoolMap.getBucket]
  refine ⟨by rw [h1]; simp [PoolMap.keys], by rw [h1]; simp, ?_⟩
  exact (bucket_pruning_next_heartbeat
    (({} : TransientResources).releaseTexture demoTexDesc 5) 1 1
    (hashTextureDesc demoTexDesc) []).2.1 (by rw [h1]; simp [PoolMap.keys])
    (by rw [h1]; simp) []

end VGFW

namespace VGFW

theorem acquireBuffer_texturePools (s : TransientResources)
    (d : FrameGraphBuffer.Desc) :
    (s.acquireBuffer d).2.texturePools = s.texturePools := by
  rcases hl : (s.bufferPools.getBucket (hashBufferDesc d)).getLast? with _ | e
  · rw [acquireBuffer_eq_none hl]
  · rw [acquireBuffer_eq_some hl]

theorem acquireTexture_bufferPools (s : TransientResources)
    (d : FrameGraphTexture.Desc) :
    (s.acquireTexture d).2.bufferPools = s.bufferPools := by
  rcases hl : (s.texturePools.getBucket (hashTextureDesc d)).getLast? with _ | e
  · rw [acquireTexture_eq_none hl]
  · rw [acquireTexture_eq_some hl]

theorem texFromRelease_stepOp {ops : List Op} {t : TraceState} (op : Op)
    (hInv : TexFromRelease ops t.pool.texturePools) :
    TexFromRelease (ops ++ [op]) ((stepOp t op).pool.texturePools) := by
  have hmono : ∀ {m : PoolMap}, TexFromRelease ops m → TexFromRelease (ops ++ [op]) m := by
    intro m hm p hp e he
    obtain ⟨d, hd, hh⟩ := hm p hp e he
    exact ⟨d, List.mem_append.mpr (Or.inl hd), hh⟩
  have hbucket : ∀ {h2 : Nat} {e : ResourceEntry},
      e ∈ t.pool.texturePools.getBucket h2 →
      ∃ d, Op.releaseTex d e.resource ∈ ops ++ [op] ∧ hashTextureDesc d = h2 := by
    intro h2 e he
    obtain ⟨p, hp, hp1, hpe⟩ := entries_getBucket he
    obtain ⟨d, hd, hh⟩ := hInv p hp e hpe
    exact ⟨d, List.mem_append.mpr (Or.inl hd), hp1 ▸ hh⟩
  cases op with
  | acquireTex d =>
    rcases hl : (t.pool.texturePools.getBucket (hashTextureDesc d)).getLast? with _ | e
    · intro p hp e2 he2
      simp only [stepOp, acquireTexture_eq_none hl] at hp
      rcases mem_setBucket hp with hp2 | hp2
      · exact hmono hInv p hp2 e2 he2
      · rw [hp2] at he2
        simp only at he2
        rw [List.getLast?_eq_none_iff.mp hl] at he2
        simp at he2
    · intro p hp e2 he2
      simp only [stepOp, acquireTexture_eq_some hl] at hp
      rcases mem_setBucket hp with hp2 | hp2
      · exact hmono hInv p hp2 e2 he2
      · rw [hp2] at he2 ⊢
        simp only at he2 ⊢
        exact hbucket ((List.dropLast_sublist _).mem he2)
  | releaseTex d r =>
    intro p hp e2 he2
    simp only [stepOp, TransientResources.releaseTexture] at hp
    rcases mem_setBucket hp with hp2 | hp2
    · exact hmono hInv p hp2 e2 he2
    · rw [hp2] at he2 ⊢
      simp only at he2 ⊢
      rcases List.mem_append.mp he2 with he3 | he3
      · exact hbucket he3
      · simp only [List.mem_singleton] at he3
        subst he3
        exact ⟨d, List.mem_append.mpr (Or.inr (List.mem_singleton.mpr rfl)), rfl⟩
  | acquireBuf d =>
    intro p hp e2 he2
    simp only [stepOp, acquireBuffer_texturePools] at hp
    exact hmono hInv p hp e2 he2
  | releaseBuf d r =>
    intro p hp e2 he2
    simp only [stepOp, TransientResources.releaseBuffer] at hp
    exact hmono hInv p hp e2 he2
  | update dt =>
    intro p hp e2 he2
    simp only [stepOp, update_texturePools_eq] at hp
    obtain ⟨b0, hb0, _, hpr⟩ := mem_heartbeatPools_fst hp
    rw [hpr] at he2
    obtain ⟨e0, he0, heq, _⟩ := mem_processBucket he2
    obtain ⟨d2, hd2, hh⟩ := hInv (p.1, b0) hb0 e0 he0
    have hres : e2.resource = e0.resource := by rw [← heq]; rfl
    rw [hres]
    exact ⟨d2, List.mem_append.mpr (Or.inl hd2), hh⟩

theorem bufFromRelease_stepOp {ops : List Op} {t : TraceState} (op : Op)
    (hInv : BufFromRelease ops t.pool.bufferPools) :
    BufFromRelease (ops ++ [op]) ((stepOp t op).pool.bufferPools) := by
  have hmono : ∀ {m : PoolMap}, BufFromRelease ops m → BufFromRelease (ops ++ [op]) m := by
    intro m hm p hp e he
    obtain ⟨d, hd, hh⟩ := hm p hp e he
    exact ⟨d, List.mem_append.mpr (Or.inl hd), hh⟩
  have hbucket : ∀ {h2 : Nat} {e : ResourceEntry},
      e ∈ t.pool.bufferPools.getBucket h2 →
      ∃ d, Op.releaseBuf d e.resource ∈ ops ++ [op] ∧ hashBufferDesc d = h2 := by
    intro h2 e he
    obtain ⟨p, hp, hp1, hpe⟩ := entries_getBucket he
    obtain ⟨d, hd, hh⟩ := hInv p hp e hpe
    exact ⟨d, List.mem_append.mpr (Or.inl hd), hp1 ▸ hh⟩
  cases op with
  | acquireBuf d =>
    rcases hl : (t.pool.bufferPools.getBucket (hashBufferDesc d)).getLast? with _ | e
    · intro p hp e2 he2
      simp only [stepOp, acquireBuffer_eq_none hl] at hp
      rcases mem_setBucket hp with hp2 | hp2
      · exact hmono hInv p hp2 e2 he2
      · rw [hp2] at he2
        simp only at he2
        rw [List.getLast?_eq_none_iff.mp hl] at he2
        simp at he2
    · intro p hp e2 he2
      simp only [stepOp, acquireBuffer_eq_some hl] at hp
      rcases mem_setBucket hp with hp2 | hp2
      · exact hmono hInv p hp2 e2 he2
      · rw [hp2] at he2 ⊢
        simp only at he2 ⊢
        exact hbucket ((List.dropLast_sublist _).mem he2)
  | releaseBuf d r =>
    intro p hp e2 he2
    simp only [stepOp, TransientResources.releaseBuffer] at hp
    rcases mem_setBucket hp with hp2 | hp2
    · exact hmono hInv p hp2 e2 he2
    · rw [hp2] at he2 ⊢
      simp only at he2 ⊢
      rcases List.mem_append.mp he2 with he3 | he3
      · exact hbucket he3
      · simp only [List.mem_singleton] at he3
        subst he3
        exact ⟨d, List.mem_append.mpr (Or.inr (List.mem_singleton.mpr rfl)), rfl⟩
  | acquireTex d =>
    intro p hp e2 he2
    simp only [stepOp, acquireTexture_bufferPools] at hp
    exact hmono hInv p hp e2 he2
  | releaseTex d r =>
    intro p hp e2 he2
    simp only [stepOp, TransientResources.releaseTexture] at hp
    exact hmono hInv p hp e2 he2
  | update dt =>
    intro p hp e2 he2
    simp only [stepOp, update_bufferPools_eq] at hp
    obtain ⟨b0, hb0, _, hpr⟩ := mem_heartbeatPools_fst hp
    rw [hpr] at he2
    obtain ⟨e0, he0, heq, _⟩ := mem_processBucket he2
    obtain ⟨d2, hd2, hh⟩ := hInv (p.1, b0) hb0 e0 he0
    have hres : e2.resource = e0.resource := by rw [← heq]; rfl
    rw [hres]
    exact ⟨d2, List.mem_append.mpr (Or.inl hd2), hh⟩

theorem texFromRelease_run (ops : List Op) :
    TexFromRelease ops (runOps ops).pool.texturePools := by
  suffices h : ∀ (rest : List Op) (t : TraceState) (ops0 : List Op),
      TexFromRelease ops0 t.pool.texturePools →
      TexFromRelease (ops0 ++ rest) ((rest.foldl stepOp t).pool.texturePools) by
    have h0 : TexFromRelease [] (({} : TraceState).pool.texturePools) := by
      intro p hp e he
      simp [TraceState.pool] at hp
    simpa [runOps] using h ops {} [] h0
  intro rest
  induction rest with
  | nil =>
    intro t ops0 h0
    simpa using h0
  | cons op rest ih =>
    intro t ops0 h0
    have h2 := ih (stepOp t op) (ops0 ++ [op]) (texFromRelease_stepOp op h0)
    simpa [List.append_assoc] using h2

theorem bufFromRelease_run (ops : List Op) :
    BufFromRelease ops (runOps ops).pool.bufferPools := by
  suffices h : ∀ (rest : List Op) (t : TraceState) (ops0 : List Op),
      BufFromRelease ops0 t.pool.bufferPools →
      BufFromRelease (ops0 ++ rest) ((rest.foldl stepOp t).pool.bufferPools) by
    have h0 : BufFromRelease [] (({} : TraceState).pool.bufferPools) := by
      intro p hp e he
      simp [TraceState.pool] at hp
    simpa [runOps] using h ops {} [] h0
  intro rest
  induction rest with
  | nil =>
    intro t ops0 h0
    simpa using h0
  | cons op rest ih =>
    intro t ops0 h0
    have h2 := ih (stepOp t op) (ops0 ++ [op]) (bufFromRelease_stepOp op h0)
    simpa [List.append_assoc] using h2

/-- Claim C6 (hash-match invariant): whenever an acquire is served from the
pool (its bucket is non-empty), the device object handed out was previously
passed to a release whose descriptor hashes to the same value as the
requested descriptor; this holds after any call sequence from a fresh
TransientResources. -/
theorem hash_match_invariant (ops : List Op) (d : FrameGraphTexture.Desc)
    (db : FrameGraphBuffer.Desc) :
    ((runOps ops).pool.texturePools.getBucket (hashTextureDesc d) ≠ [] →
      ∃ d2, Op.releaseTex d2 ((runOps ops).pool.acquireTexture d).1 ∈ ops
        ∧ hashTextureDesc d2 = hashTextureDesc d)
    ∧ ((runOps ops).pool.bufferPools.getBucket (hashBufferDesc db) ≠ [] →
      ∃ d2, Op.releaseBuf d2 ((runOps ops).pool.acquireBuffer db).1 ∈ ops
        ∧ hashBufferDesc d2 = hashBufferDesc db) := by
  constructor
  · intro hne
    obtain ⟨e, hl⟩ : ∃ e, ((runOps ops).pool.texturePools.getBucket
        (hashTextureDesc d)).getLast? = some e := by
      rcases hx : ((runOps ops).pool.texturePools.getBucket
          (hashTextureDesc d)).getLast? with _ | e
      · exact absurd (List.getLast?_eq_none_iff.mp hx) hne
      · exact ⟨e, rfl⟩
    rw [acquireTexture_eq_some hl]
    obtain ⟨p, hp, hp1, hpe⟩ := entries_getBucket (mem_of_getLast?_eq hl)
    obtain ⟨d2, hd2, hh⟩ := texFromRelease_run ops p hp e hpe
    exact ⟨d2, hd2, by rw [← hp1]; exact hh⟩
  · intro hne
    obtain ⟨e, hl⟩ : ∃ e, ((runOps ops).pool.bufferPools.getBucket
        (hashBufferDesc db)).getLast? = some e := by
      rcases hx : ((runOps ops).pool.bufferPools.getBucket
          (hashBufferDesc db)).getLast? with _ | e
      · exact absurd (List.getLast?_eq_none_iff.mp hx) hne
      · exact ⟨e, rfl⟩
    rw [acquireBuffer_eq_some hl]
    obtain ⟨p, hp, hp1, hpe⟩ := entries_getBucket (mem_of_getLast?_eq hl)
    obtain ⟨d2, hd2, hh⟩ := bufFromRelease_run ops p hp e hpe
    exact ⟨d2, hd2, by rw [← hp1]; exact hh⟩

set_option maxRecDepth 10000 in
/-- Witness for C6 at a concrete input: a trace that acquires and releases
one texture and one buffer, then acquires again. -/
theorem hash_match_invariant_witness :
    ((runOps [Op.acquireTex demoTexDesc, Op.releaseTex demoTexDesc 0,
        Op.acquireBuf demoBufDesc, Op.releaseBuf demoBufDesc 1]).pool.texturePools.getBucket
      (hashTextureDesc demoTexDesc) ≠ [])
    ∧ ∃ d2, Op.releaseTex d2
        ((runOps [Op.acquireTex demoTexDesc, Op.releaseTex demoTexDesc 0,
          Op.acquireBuf demoBufDesc, Op.releaseBuf demoBufDesc 1]).pool.acquireTexture
            demoTexDesc).1
          ∈ [Op.acquireTex demoTexDesc, Op.releaseTex demoTexDesc 0,
             Op.acquireBuf demoBufDesc, Op.releaseBuf demoBufDesc 1]
        ∧ hashTextureDesc d2 = hashTextureDesc demoTexDesc := by
  refine ⟨by decide, ?_⟩
  exact (hash_match_invariant [Op.acquireTex demoTexDesc, Op.releaseTex demoTexDesc 0,
    Op.acquireBuf demoBufDesc, Op.releaseBuf demoBufDesc 1] demoTexDesc demoBufDesc).1
    (by decide)

end VGFW

namespace VGFW

theorem resMS_setBucket_same (m : PoolMap) (h : Nat) :
    (m.setBucket h (m.getBucket h)).resMS = m.resMS :=
  add_right_cancel (resMS_setBucket m h (m.getBucket h))

theorem resMS_setBucket_push (m : PoolMap) (h : Nat) (e : ResourceEntry) :
    (m.setBucket h (m.getBucket h ++ [e])).resMS = m.resMS + {e.resource} := by
  have h2 := resMS_setBucket m h (m.getBucket h ++ [e])
  rw [bucketMS_push] at h2
  have h3 : m.resMS + (bucketMS (m.getBucket h) + {e.resource})
      = m.resMS + {e.resource} + bucketMS (m.getBucket h) := by ac_rfl
  rw [h3] at h2
  exact add_right_cancel h2

theorem resMS_setBucket_pop (m : PoolMap) (h : Nat) {e : ResourceEntry}
    (hl : (m.getBucket h).getLast? = some e) :
    (m.setBucket h (m.getBucket h).dropLast).resMS + {e.resource} = m.resMS := by
  have h2 := resMS_setBucket m h (m.getBucket h).dropLast
  rw [bucketMS_getLast hl] at h2
  have h3 : (m.setBucket h (m.getBucket h).dropLast).resMS
      + (bucketMS (m.getBucket h).dropLast + {e.resource})
      = (m.setBucket h (m.getBucket h).dropLast).resMS + {e.resource}
      + bucketMS (m.getBucket h).dropLast := by ac_rfl
  rw [h3] at h2
  exact add_right_cancel h2

theorem bucketMS_processBucket_le (dt : Rat) (b : ResourcePool) :
    bucketMS (processBucket dt b) ≤ bucketMS b := by
  have h1 : List.Sublist ((processBucket dt b).map ResourceEntry.resource)
      ((b.map (tickEntry dt)).map ResourceEntry.resource) :=
    List.Sublist.map _ (List.filter_sublist _)
  have h2 : (b.map (tickEntry dt)).map ResourceEntry.resource
      = b.map ResourceEntry.resource := by
    simp [List.map_map, tickEntry, Function.comp]
  rw [h2] at h1
  exact h1.subperm

theorem resMS_heartbeat_le (dt : Rat) (m : PoolMap) :
    (heartbeatPools dt m).1.resMS ≤ m.resMS := by
  induction m with
  | nil => simp [heartbeatPools, PoolMap.resMS]
  | cons q rest ih =>
    obtain ⟨h, b⟩ := q
    by_cases hb : b = []
    · subst hb
      simp only [heartbeatPools, List.isEmpty_nil, if_pos rfl, PoolMap.resMS]
      calc (heartbeatPools dt rest).1.resMS ≤ PoolMap.resMS rest := ih
        _ ≤ bucketMS [] + PoolMap.resMS rest := le_add_self
    · simp only [heartbeatPools, List.isEmpty_iff, if_neg hb, PoolMap.resMS]
      exact add_le_add (bucketMS_processBucket_le dt b) ih

theorem update_nextId (s : TransientResources) (dt : Rat) :
    (s.update dt).nextId = s.nextId := by
  simp [TransientResources.update]

theorem heldMS_mk (pool : TransientResources) (live : List Nat) :
    heldMS ⟨pool, live⟩
      = (live : Multiset Nat) + pool.texturePools.resMS + pool.bufferPools.resMS := rfl

theorem traceInv_stepOp {t : TraceState} {op : Op} (hInv : TraceInv t)
    (hwfT : ∀ (d : FrameGraphTexture.Desc) (r : Nat), op = Op.releaseTex d r → r ∈ t.live)
    (hwfB : ∀ (d : FrameGraphBuffer.Desc) (r : Nat), op = Op.releaseBuf d r → r ∈ t.live) :
    TraceInv (stepOp t op) := by
  obtain ⟨hnd, hbound⟩ := hInv
  cases op with
  | acquireTex d =>
    have hstep : stepOp t (Op.acquireTex d)
        = ⟨(t.pool.acquireTexture d).2, t.live ++ [(t.pool.acquireTexture d).1]⟩ := rfl
    rcases hl : (t.pool.texturePools.getBucket (hashTextureDesc d)).getLast? with _ | e
    · have hms : heldMS (stepOp t (Op.acquireTex d)) = heldMS t + {t.pool.nextId} := by
        rw [hstep, acquireTexture_eq_none hl, heldMS_mk]
        simp only [resMS_setBucket_same]
        show (↑t.live + {t.pool.nextId} : Multiset Nat)
            + t.pool.texturePools.resMS + t.pool.bufferPools.resMS
          = heldMS t + {t.pool.nextId}
        show (↑t.live + {t.pool.nextId} : Multiset Nat)
            + t.pool.texturePools.resMS + t.pool.bufferPools.resMS
          = ↑t.live + t.pool.texturePools.resMS + t.pool.bufferPools.resMS
            + {t.pool.nextId}
        ac_rfl
      have hnext : (stepOp t (Op.acquireTex d)).pool.nextId = t.pool.nextId + 1 := by
        rw [hstep, acquireTexture_eq_none hl]
      constructor
      · rw [hms, add_comm, Multiset.singleton_add]
        exact Multiset.nodup_cons.mpr
          ⟨fun hmem => absurd (hbound _ hmem) (lt_irrefl _), hnd⟩
      · intro x hx
        rw [hms] at hx
        rw [hnext]
        rcases Multiset.mem_add.mp hx with hx2 | hx2
        · exact Nat.lt_succ_of_lt (hbound x hx2)
        · rw [Multiset.mem_singleton.mp hx2]
          exact Nat.lt_succ_self _
    · have hpop := resMS_setBucket_pop t.pool.texturePools (hashTextureDesc d) hl
      have hms : heldMS (stepOp t (Op.acquireTex d)) = heldMS t := by
        rw [hstep, acquireTexture_eq_some hl, heldMS_mk]
        show (↑t.live + {e.resource} : Multiset Nat)
            + (t.pool.texturePools.setBucket (hashTextureDesc d)
                (t.pool.texturePools.getBucket (hashTextureDesc d)).dropLast).resMS
            + t.pool.bufferPools.resMS
          = ↑t.live + t.pool.texturePools.resMS + t.pool.bufferPools.resMS
        rw [← hpop]
        ac_rfl
      have hnext : (stepOp t (Op.acquireTex d)).pool.nextId = t.pool.nextId := by
        rw [hstep, acquireTexture_eq_some hl]
      constructor
      · rw [hms]; exact hnd
      · intro x hx
        rw [hms] at hx
        rw [hnext]
        exact hbound x hx
  | releaseTex d r =>
    have hr : r ∈ t.live := hwfT d r rfl
    have hstep : stepOp t (Op.releaseTex d r)
        = ⟨t.pool.releaseTexture d r, t.live.erase r⟩ := rfl
    have hpush : (t.pool.releaseTexture d r).texturePools.resMS
        = t.pool.texturePools.resMS + {r} :=
      resMS_setBucket_push t.pool.texturePools (hashTextureDesc d) ⟨r, 0⟩
    have h1 : ((t.live.erase r : List Nat) : Multiset Nat)
        = (↑t.live : Multiset Nat).erase r := Multiset.coe_erase t.live r
    have h2 : (↑t.live : Multiset Nat).erase r + {r} = ↑t.live := by
      rw [add_comm, Multiset.singleton_add]
      exact Multiset.cons_erase (Multiset.mem_coe.mpr hr)
    have hms : heldMS (stepOp t (Op.releaseTex d r)) = heldMS t := by
      rw [hstep, heldMS_mk, hpush, h1]
      show (↑t.live : Multiset Nat).erase r
          + (t.pool.texturePools.resMS + {r}) + t.pool.bufferPools.resMS
        = ↑t.live + t.pool.texturePools.resMS + t.pool.bufferPools.resMS
      calc (↑t.live : Multiset Nat).erase r
          + (t.pool.texturePools.resMS + {r}) + t.pool.bufferPools.resMS
          = ((↑t.live : Multiset Nat).erase r + {r})
            + t.pool.texturePools.resMS + t.pool.bufferPools.resMS := by ac_rfl
        _ = ↑t.live + t.pool.texturePools.resMS + t.pool.bufferPools.resMS := by
            rw [h2]
    exact ⟨by rw [hms]; exact hnd, fun x hx => hbound x (by rwa [hms] at hx)⟩
  | acquireBuf d =>
    have hstep : stepOp t (Op.acquireBuf d)
        = ⟨(t.pool.acquireBuffer d).2, t.live ++ [(t.pool.acquireBuffer d).1]⟩ := rfl
    rcases hl : (t.pool.bufferPools.getBucket (hashBufferDesc d)).getLast? with _ | e
    · have hms : heldMS (stepOp t (Op.acquireBuf d)) = heldMS t + {t.pool.nextId} := by
        rw [hstep, acquireBuffer_eq_none hl, heldMS_mk]
        simp only [resMS_setBucket_same]
        show (↑t.live + {t.pool.nextId} : Multiset Nat)
            + t.pool.texturePools.resMS + t.pool.bufferPools.resMS
          = ↑t.live + t.pool.texturePools.resMS + t.pool.bufferPools.resMS
            + {t.pool.nextId}
        ac_rfl
      have hnext : (stepOp t (Op.acquireBuf d)).pool.nextId = t.pool.nextId + 1 := by
        rw [hstep, acquireBuffer_eq_none hl]
      constructor
      · rw [hms, add_comm, Multiset.singleton_add]
        exact Multiset.nodup_cons.mpr
          ⟨fun hmem => absurd (hbound _ hmem) (lt_irrefl _), hnd⟩
      · intro x hx
        rw [hms] at hx
        rw [hnext]
        rcases Multiset.mem_add.mp hx with hx2 | hx2
        · exact Nat.lt_succ_of_lt (hbound x hx2)
        · rw [Multiset.mem_singleton.mp hx2]
          exact Nat.lt_succ_self _
    · have hpop := resMS_setBucket_pop t.pool.bufferPools (hashBufferDesc d) hl
      have hms : heldMS (stepOp t (Op.acquireBuf d)) = heldMS t := by
        rw [hstep, acquireBuffer_eq_some hl, heldMS_mk]
        show (↑t.live + {e.resource} : Multiset Nat)
            + t.pool.texturePools.resMS
            + (t.pool.bufferPools.setBucket (hashBufferDesc d)
                (t.pool.bufferPools.getBucket (hashBufferDesc d)).dropLast).resMS
          = ↑t.live + t.pool.texturePools.resMS + t.pool.bufferPools.resMS
        rw [← hpop]
        ac_rfl
      have hnext : (stepOp t (Op.acquireBuf d)).pool.nextId = t.pool.nextId := by
        rw [hstep, acquireBuffer_eq_some hl]
      constructor
      · rw [hms]; exact hnd
      · intro x hx
        rw [hms] at hx
        rw [hnext]
        exact hbound x hx
  | releaseBuf d r =>
    have hr : r ∈ t.live := hwfB d r rfl
    have hstep : stepOp t (Op.releaseBuf d r)
        = ⟨t.pool.releaseBuffer d r, t.live.erase r⟩ := rfl
    have hpush : (t.pool.releaseBuffer d r).bufferPools.resMS
        = t.pool.bufferPools.resMS + {r} :=
      resMS_setBucket_push t.pool.bufferPools (hashBufferDesc d) ⟨r, 0⟩
    have h1 : ((t.live.erase r : List Nat) : Multiset Nat)
        = (↑t.live : Multiset Nat).erase r := Multiset.coe_erase t.live r
    have h2 : (↑t.live : Multiset Nat).erase r + {r} = ↑t.live := by
      rw [add_comm, Multiset.singleton_add]
      exact Multiset.cons_erase (Multiset.mem_coe.mpr hr)
    have hms : heldMS (stepOp t (Op.releaseBuf d r)) = heldMS t := by
      rw [hstep, heldMS_mk, hpush, h1]
      calc (↑t.live : Multiset Nat).erase r
          + t.pool.texturePools.resMS + (t.pool.bufferPools.resMS + {r})
          = ((↑t.live : Multiset Nat).erase r + {r})
            + t.pool.texturePools.resMS + t.pool.bufferPools.resMS := by ac_rfl
        _ = ↑t.live + t.pool.texturePools.resMS + t.pool.bufferPools.resMS := by
            rw [h2]
    exact ⟨by rw [hms]; exact hnd, fun x hx => hbound x (by rwa [hms] at hx)⟩
  | update dt =>
    have hstep : stepOp t (Op.update dt) = ⟨t.pool.update dt, t.live⟩ := rfl
    have hle : heldMS (stepOp t (Op.update dt)) ≤ heldMS t := by
      rw [hstep, heldMS_mk, update_texturePools_eq, update_bufferPools_eq]
      exact add_le_add (add_le_add le_rfl (resMS_heartbeat_le dt _))
        (resMS_heartbeat_le dt _)
    have hnext : (stepOp t (Op.update dt)).pool.nextId = t.pool.nextId := by
      rw [hstep]
      exact update_nextId t.pool dt
    constructor
    · exact Multiset.nodup_of_le hle hnd
    · intro x hx
      rw [hnext]
      exact hbound x (Multiset.mem_of_le hle hx)

theorem traceInv_run (ops : List Op) (hwf : wfTrace ops = true) :
    TraceInv (runOps ops) := by
  suffices h : ∀ (rest : List Op) (t : TraceState), TraceInv t →
      wfFrom t rest = true → TraceInv (rest.foldl stepOp t) by
    have h0 : TraceInv ({} : TraceState) := by
      constructor
      · simp [heldMS, PoolMap.resMS]
      · intro x hx
        simp [heldMS, PoolMap.resMS] at hx
    exact h ops {} h0 hwf
  intro rest
  induction rest with
  | nil =>
    intro t ht _
    simpa using ht
  | cons op rest ih =>
    intro t ht hwf2
    simp only [wfFrom, Bool.and_eq_true] at hwf2
    obtain ⟨hok, hrest⟩ := hwf2
    refine ih (stepOp t op) (traceInv_stepOp ht ?_ ?_) hrest
    · intro d r hop
      subst hop
      simpa using hok
    · intro d r hop
      subst hop
      simpa using hok

/-- Claim C7 (no aliasing of live resources): along any wellformed call
sequence (every release passes a currently live object), no device object is
held twice: the live list is duplicate-free, and a further acquire returns
an object that no caller currently holds. -/
theorem no_live_aliasing (ops : List Op) (d : FrameGraphTexture.Desc)
    (db : FrameGraphBuffer.Desc) (hwf : wfTrace ops = true) :
    (runOps ops).live.Nodup
    ∧ ((runOps ops).pool.acquireTexture d).1 ∉ (runOps ops).live
    ∧ ((runOps ops).pool.acquireBuffer db).1 ∉ (runOps ops).live := by
  obtain ⟨hnd, hbound⟩ := traceInv_run ops hwf
  have hsplit : heldMS (runOps ops)
      = (↑(runOps ops).live + (runOps ops).pool.texturePools.resMS)
        + (runOps ops).pool.bufferPools.resMS := by
    rw [heldMS]
  rw [hsplit] at hnd
  obtain ⟨h12, hB, hd3⟩ := Multiset.nodup_add.mp hnd
  obtain ⟨hL, hA, hdLA⟩ := Multiset.nodup_add.mp h12
  refine ⟨Multiset.coe_nodup.mp hL, ?_, ?_⟩
  · rcases hl : ((runOps ops).pool.texturePools.getBucket
        (hashTextureDesc d)).getLast? with _ | e
    · rw [acquireTexture_eq_none hl]
      intro hmem
      have hx : (runOps ops).pool.nextId ∈ heldMS (runOps ops) := by
        rw [hsplit]
        exact Multiset.mem_add.mpr (Or.inl (Multiset.mem_add.mpr
          (Or.inl (Multiset.mem_coe.mpr hmem))))
      exact absurd (hbound _ hx) (lt_irrefl _)
    · rw [acquireTexture_eq_some hl]
      intro hmem
      have hxA : e.resource ∈ (runOps ops).pool.texturePools.resMS := by
        refine Multiset.mem_of_le (bucketMS_getBucket_le _ (hashTextureDesc d)) ?_
        exact Multiset.mem_coe.mpr (List.mem_map_of_mem _ (mem_of_getLast?_eq hl))
      exact absurd hxA (Multiset.disjoint_left.mp hdLA (Multiset.mem_coe.mpr hmem))
  · rcases hl : ((runOps ops).pool.bufferPools.getBucket
        (hashBufferDesc db)).getLast? with _ | e
    · rw [acquireBuffer_eq_none hl]
      intro hmem
      have hx : (runOps ops).pool.nextId ∈ heldMS (runOps ops) := by
        rw [hsplit]
        exact Multiset.mem_add.mpr (Or.inl (Multiset.mem_add.mpr
          (Or.inl (Multiset.mem_coe.mpr hmem))))
      exact absurd (hbound _ hx) (lt_irrefl _)
    · rw [acquireBuffer_eq_some hl]
      intro hmem
      have hxB : e.resource ∈ (runOps ops).pool.bufferPools.resMS := by
        refine Multiset.mem_of_le (bucketMS_getBucket_le _ (hashBufferDesc db)) ?_
        exact Multiset.mem_coe.mpr (List.mem_map_of_mem _ (mem_of_getLast?_eq hl))
      have hdLB : Disjoint (↑(runOps ops).live : Multiset Nat)
          (runOps ops).pool.bufferPools.resMS :=
        Disjoint.mono_left (le_add_right le_rfl) hd3
      exact absurd hxB (Multiset.disjoint_left.mp hdLB (Multiset.mem_coe.mpr hmem))

set_option maxRecDepth 10000 in
/-- Witness for C7 at a concrete input: a wellformed trace acquiring two
textures, releasing one, and acquiring a buffer. -/
theorem no_live_aliasing_witness :
    wfTrace [Op.acquireTex demoTexDesc, Op.acquireTex demoTexDesc,
      Op.releaseTex demoTexDesc 0, Op.acquireBuf demoBufDesc] = true
    ∧ (runOps [Op.acquireTex demoTexDesc, Op.acquireTex demoTexDesc,
      Op.releaseTex demoTexDesc 0, Op.acquireBuf demoBufDesc]).live.Nodup := by
  refine ⟨by decide, ?_⟩
  exact (no_live_aliasing [Op.acquireTex demoTexDesc, Op.acquireTex demoTexDesc,
    Op.releaseTex demoTexDesc 0, Op.acquireBuf demoBufDesc]
    demoTexDesc demoBufDesc (by decide)).1

end VGFW

namespace VGFW

theorem keptIter_sound (g : FrameGraph) : ∀ (n p : Nat), p ∈ keptIter g n → Reaches g p := by
  intro n
  induction n with
  | zero =>
    intro p hp
    simp only [keptIter, List.mem_filter, List.mem_range] at hp
    obtain ⟨hlt, hside⟩ := hp
    rcases hget : g.passes[p]? with _ | ps
    · rw [hget] at hside
      simp at hside
    · rw [hget] at hside
      simp at hside
      exact Reaches.side p ps hget hside
  | succ n ih =>
    intro p hp
    simp only [keptIter, keptStep, List.mem_append, List.mem_filter,
      List.mem_range] at hp
    rcases hp with hp | ⟨hlt, hcond⟩
    · exact ih p hp
    · rw [Bool.and_eq_true] at hcond
      obtain ⟨hnotin, hprod⟩ := hcond
      simp only [producesForKept, List.any_eq_true] at hprod
      obtain ⟨q, hq, hq2⟩ := hprod
      obtain ⟨r, hr, hr2⟩ := hq2
      rcases hget : g.passes[q]? with _ | ps
      · rw [hget] at hr
        simp at hr
      · rw [hget] at hr
        simp at hr
        have hprod2 : g.producer r = some p := by simpa using hr2
        exact Reaches.read p q r ps (ih q hq) hget hr hprod2

theorem keptPasses_sound (g : FrameGraph) {p : Nat} (hp : p ∈ keptPasses g) :
    Reaches g p :=
  keptIter_sound g g.passes.length p hp

theorem materializeNode_executed (g : FrameGraph) (st : ExecState) (r : Nat) :
    (materializeNode g st r).executed = st.executed := by
  cases hget : g.nodes[r]? with
  | none => simp [materializeNode, hget]
  | some n =>
    cases himp : n.importedId with
    | some ext => simp [materializeNode, hget, himp]
    | none => cases hdesc : n.desc <;> simp [materializeNode, hget, himp, hdesc]

theorem materializeNode_mat_fst {g : FrameGraph} {st : ExecState} {r x : Nat}
    (hx : x ∈ (materializeNode g st r).materialized.map Prod.fst) :
    x ∈ st.materialized.map Prod.fst ∨ x = r := by
  cases hget : g.nodes[r]? with
  | none =>
    rw [materializeNode, hget] at hx
    exact Or.inl hx
  | some n =>
    cases himp : n.importedId with
    | some ext =>
      rw [materializeNode, hget] at hx
      simp only [himp] at hx
      simp at hx
      rcases hx with hx | hx
      · exact Or.inl (by simpa using hx)
      · exact Or.inr hx
    | none =>
      cases hdesc : n.desc <;>
      · rw [materializeNode, hget] at hx
        simp only [himp, hdesc] at hx
        simp at hx
        rcases hx with hx | hx
        · exact Or.inl (by simpa using hx)
        · exact Or.inr hx

theorem releaseNode_frame (g : FrameGraph) (st : ExecState) (r : Nat) :
    (releaseNode g st r).materialized = st.materialized
    ∧ (releaseNode g st r).executed = st.executed := by
  cases hget : g.nodes[r]? with
  | none => simp [releaseNode, hget]
  | some n =>
    by_cases himp : n.importedId.isSome
    · simp [releaseNode, hget, himp]
    · cases hfind : st.materialized.find? (fun p => p.1 == r) with
      | none => simp [releaseNode, hget, himp, hfind]
      | some m => cases hdesc : n.desc <;> simp [releaseNode, hget, himp, hfind, hdesc]

theorem foldl_materializeNode_executed (g : FrameGraph) (l : List Nat)
    (st : ExecState) :
    (l.foldl (materializeNode g) st).executed = st.executed := by
  induction l generalizing st with
  | nil => rfl
  | cons r l ih => rw [List.foldl_cons, ih, materializeNode_executed]

theorem foldl_materializeNode_mat {g : FrameGraph} (l : List Nat)
    (st : ExecState) {x : Nat}
    (hx : x ∈ (l.foldl (materializeNode g) st).materialized.map Prod.fst) :
    x ∈ st.materialized.map Prod.fst ∨ x ∈ l := by
  induction l generalizing st with
  | nil => exact Or.inl hx
  | cons r l ih =>
    rw [List.foldl_cons] at hx
    rcases ih (materializeNode g st r) hx with hx2 | hx2
    · rcases materializeNode_mat_fst hx2 with hx3 | hx3
      · exact Or.inl hx3
      · exact Or.inr (by simp [hx3])
    · exact Or.inr (by simp [hx2])

theorem foldl_releaseNode_frame (g : FrameGraph) (l : List Nat) (st : ExecState) :
    (l.foldl (releaseNode g) st).materialized = st.materialized
    ∧ (l.foldl (releaseNode g) st).executed = st.executed := by
  induction l generalizing st with
  | nil => exact ⟨rfl, rfl⟩
  | cons r l ih =>
    rw [List.foldl_cons]
    obtain ⟨h1, h2⟩ := ih (releaseNode g st r)
    obtain ⟨h3, h4⟩ := releaseNode_frame g st r
    exact ⟨h1.trans h3, h2.trans h4⟩

theorem execPass_inv {g : FrameGraph} {st : ExecState} (i : Nat)
    (hInv : ExecInv g st) : ExecInv g (execPass g st i) := by
  by_cases hkept : (keptPasses g).contains i
  · have hkeptm : i ∈ keptPasses g := by simpa using hkept
    obtain ⟨hex, hmat⟩ := hInv
    simp only [execPass, if_pos hkept]
    obtain ⟨hrelmat, hrelex⟩ := foldl_releaseNode_frame g _ _
    constructor
    · intro j hj
      rw [hrelex] at hj
      simp only at hj
      rw [foldl_materializeNode_executed] at hj
      rcases List.mem_append.mp hj with hj2 | hj2
      · exact hex j hj2
      · rw [List.mem_singleton.mp hj2]
        exact hkeptm
    · intro x hx n hget
      rw [hrelmat] at hx
      simp only at hx
      rcases foldl_materializeNode_mat _ _ hx with hx2 | hx2
      · exact hmat x hx2 n hget
      · simp only [List.mem_filter, List.mem_range] at hx2
        obtain ⟨hxlt, hpred⟩ := hx2
        rw [hget] at hpred
        simp at hpred
        rw [hpred]
        exact hkeptm
  · simp only [execPass, if_neg hkept]
    exact hInv

theorem foldl_execPass_inv (g : FrameGraph) (l : List Nat) (st : ExecState)
    (h : ExecInv g st) : ExecInv g (l.foldl (execPass g) st) := by
  induction l generalizing st with
  | nil => exact h
  | cons i l ih =>
    rw [List.foldl_cons]
    exact ih _ (execPass_inv i h)

theorem execute_inv (g : FrameGraph) (s0 : TransientResources) :
    ExecInv g (g.execute s0) :=
  foldl_execPass_inv g _ _ ⟨by simp, by simp⟩

end VGFW

namespace VGFW

/-- Claim C8 (culling correctness): if pass P has no path via reads to a
side-effect pass, then executing the compiled graph never invokes the
execute closure of P, and a resource node created by P is never
materialised (never acquired from the transient pool). -/
theorem culling_correctness (g : FrameGraph) (s0 : TransientResources) (P : Nat)
    (hP : ¬ Reaches g P) :
    P ∉ (g.execute s0).executed
    ∧ ∀ r n, g.nodes[r]? = some n → n.creator = P →
        r ∉ (g.execute s0).materialized.map Prod.fst := by
  have hkept : P ∉ keptPasses g := fun hk => hP (keptPasses_sound g hk)
  obtain ⟨hexec, hmat⟩ := execute_inv g s0
  constructor
  · intro hc
    exact hkept (hexec P hc)
  · intro r n hget hcr hc
    apply hkept
    rw [← hcr]
    exact hmat r hc n hget

theorem reaches_demoGraphCulled {p : Nat} (h : Reaches demoGraphCulled p) :
    p = 1 := by
  induction h with
  | side p2 ps hget hse =>
    match p2, hget with
    | 0, hget =>
      simp [demoGraphCulled] at hget
      rw [← hget] at hse
      simp at hse
    | 1, hget => rfl
    | n + 2, hget => simp [demoGraphCulled] at hget
  | read p2 q r ps hq hget hr hprod ih =>
    subst ih
    simp [demoGraphCulled] at hget
    rw [← hget] at hr
    simp at hr

/-- Witness for C8 at a concrete input: in the two-pass demo graph, pass 0
creates a texture node that nothing reads and is not a side-effect pass, so
it is culled: it is not executed and its node is never materialised. -/
theorem culling_correctness_witness :
    ¬ Reaches demoGraphCulled 0
    ∧ (0 : Nat) ∉ (demoGraphCulled.execute {}).executed
    ∧ (0 : Nat) ∉ (demoGraphCulled.execute {}).materialized.map Prod.fst := by
  have hnr : ¬ Reaches demoGraphCulled 0 := fun h => by
    have := reaches_demoGraphCulled h
    simp at this
  obtain ⟨h1, h2⟩ := culling_correctness demoGraphCulled {} 0 hnr
  exact ⟨hnr, h1, h2 0 { creator := 0, desc := .texture demoTexDesc } (by decide) rfl⟩

end VGFW

namespace VGFW

theorem mentionsB_false_iff (s : TransientResources) (x : Nat) :
    s.mentionsB x = false ↔
      (x ∉ s.textures ∧ x ∉ s.buffers
      ∧ (∀ p ∈ s.texturePools, ∀ e ∈ p.2, e.resource ≠ x)
      ∧ (∀ p ∈ s.bufferPools, ∀ e ∈ p.2, e.resource ≠ x)
      ∧ x ∉ s.destroyed) := by
  simp [TransientResources.mentionsB]
  tauto

theorem extSafe_acquireTexture {s : TransientResources} {x : Nat}
    (d : FrameGraphTexture.Desc) (hm : s.mentionsB x = false) (hx : x < s.nextId) :
    (s.acquireTexture d).2.mentionsB x = false
    ∧ x < (s.acquireTexture d).2.nextId
    ∧ (s.acquireTexture d).1 ≠ x := by
  obtain ⟨ht, hb, htp, hbp, hd⟩ := (mentionsB_false_iff s x).mp hm
  rcases hl : (s.texturePools.getBucket (hashTextureDesc d)).getLast? with _ | e
  · rw [acquireTexture_eq_none hl]
    have hxne : s.nextId ≠ x := fun h => absurd (h ▸ hx) (lt_irrefl _)
    refine ⟨?_, Nat.lt_succ_of_lt hx, hxne⟩
    rw [mentionsB_false_iff]
    refine ⟨?_, hb, ?_, hbp, hd⟩
    · show x ∉ s.textures ++ [s.nextId]
      simp only [List.mem_append, List.mem_singleton]
      rintro (hc | hc)
      · exact ht hc
      · exact hxne hc.symm
    · intro p hp e2 he2
      rcases mem_setBucket hp with hp2 | hp2
      · exact htp p hp2 e2 he2
      · rw [hp2] at he2
        simp only at he2
        obtain ⟨p2, hp3, _, hpe⟩ := entries_getBucket he2
        exact htp p2 hp3 e2 hpe
  · rw [acquireTexture_eq_some hl]
    have heres : e.resource ≠ x := by
      obtain ⟨p2, hp3, _, hpe⟩ := entries_getBucket (mem_of_getLast?_eq hl)
      exact htp p2 hp3 e hpe
    refine ⟨?_, hx, heres⟩
    rw [mentionsB_false_iff]
    refine ⟨ht, hb, ?_, hbp, hd⟩
    intro p hp e2 he2
    rcases mem_setBucket hp with hp2 | hp2
    · exact htp p hp2 e2 he2
    · rw [hp2] at he2
      simp only at he2
      obtain ⟨p2, hp3, _, hpe⟩ := entries_getBucket ((List.dropLast_sublist _).mem he2)
      exact htp p2 hp3 e2 hpe

theorem extSafe_acquireBuffer {s : TransientResources} {x : Nat}
    (d : FrameGraphBuffer.Desc) (hm : s.mentionsB x = false) (hx : x < s.nextId) :
    (s.acquireBuffer d).2.mentionsB x = false
    ∧ x < (s.acquireBuffer d).2.nextId
    ∧ (s.acquireBuffer d).1 ≠ x := by
  obtain ⟨ht, hb, htp, hbp, hd⟩ := (mentionsB_false_iff s x).mp hm
  rcases hl : (s.bufferPools.getBucket (hashBufferDesc d)).getLast? with _ | e
  · rw [acquireBuffer_eq_none hl]
    have hxne : s.nextId ≠ x := fun h => absurd (h ▸ hx) (lt_irrefl _)
    refine ⟨?_, Nat.lt_succ_of_lt hx, hxne⟩
    rw [mentionsB_false_iff]
    refine ⟨ht, ?_, htp, ?_, hd⟩
    · show x ∉ s.buffers ++ [s.nextId]
      simp only [List.mem_append, List.mem_singleton]
      rintro (hc | hc)
      · exact hb hc
      · exact hxne hc.symm
    · intro p hp e2 he2
      rcases mem_setBucket hp with hp2 | hp2
      · exact hbp p hp2 e2 he2
      · rw [hp2] at he2
        simp only at he2
        obtain ⟨p2, hp3, _, hpe⟩ := entries_getBucket he2
        exact hbp p2 hp3 e2 hpe
  · rw [acquireBuffer_eq_some hl]
    have heres : e.resource ≠ x := by
      obtain ⟨p2, hp3, _, hpe⟩ := entries_getBucket (mem_of_getLast?_eq hl)
      exact hbp p2 hp3 e hpe
    refine ⟨?_, hx, heres⟩
    rw [mentionsB_false_iff]
    refine ⟨ht, hb, htp, ?_, hd⟩
    intro p hp e2 he2
    rcases mem_setBucket hp with hp2 | hp2
    · exact hbp p hp2 e2 he2
    · rw [hp2] at he2
      simp only at he2
      obtain ⟨p2, hp3, _, hpe⟩ := entries_getBucket ((List.dropLast_sublist _).mem he2)
      exact hbp p2 hp3 e2 hpe

theorem extSafe_releaseTexture {s : TransientResources} {x : Nat}
    (d : FrameGraphTexture.Desc) (r : Nat) (hm : s.mentionsB x = false)
    (hr : r ≠ x) : (s.releaseTexture d r).mentionsB x = false := by
  obtain ⟨ht, hb, htp, hbp, hd⟩ := (mentionsB_false_iff s x).mp hm
  rw [mentionsB_false_iff]
  refine ⟨ht, hb, ?_, hbp, hd⟩
  intro p hp e2 he2
  rcases mem_setBucket hp with hp2 | hp2
  · exact htp p hp2 e2 he2
  · rw [hp2] at he2
    simp only at he2
    rcases List.mem_append.mp he2 with he3 | he3
    · obtain ⟨p2, hp3, _, hpe⟩ := entries_getBucket he3
      exact htp p2 hp3 e2 hpe
    · rw [List.mem_singleton.mp he3]
      exact hr

theorem extSafe_releaseBuffer {s : TransientResources} {x : Nat}
    (d : FrameGraphBuffer.Desc) (r : Nat) (hm : s.mentionsB x = false)
    (hr : r ≠ x) : (s.releaseBuffer d r).mentionsB x = false := by
  obtain ⟨ht, hb, htp, hbp, hd⟩ := (mentionsB_false_iff s x).mp hm
  rw [mentionsB_false_iff]
  refine ⟨ht, hb, htp, ?_, hd⟩
  intro p hp e2 he2
  rcases mem_setBucket hp with hp2 | hp2
  · exact hbp p hp2 e2 he2
  · rw [hp2] at he2
    simp only at he2
    rcases List.mem_append.mp he2 with he3 | he3
    · obtain ⟨p2, hp3, _, hpe⟩ := entries_getBucket he3
      exact hbp p2 hp3 e2 hpe
    · rw [List.mem_singleton.mp he3]
      exact hr

theorem update_textures_sub {s : TransientResources} {dt : Rat} {x : Nat}
    (hc : x ∈ (s.update dt).textures) : x ∈ s.textures := by
  have h : (s.update dt).textures = s.textures.filter
      (fun t => ¬ t ∈ s.destroyed ++ (heartbeatPools dt s.texturePools).2) := by
    simp [TransientResources.update]
  rw [h] at hc
  exact List.mem_of_mem_filter hc

theorem update_buffers_sub {s : TransientResources} {dt : Rat} {x : Nat}
    (hc : x ∈ (s.update dt).buffers) : x ∈ s.buffers := by
  have h : (s.update dt).buffers = s.buffers.filter
      (fun b => ¬ b ∈ s.destroyed ++ (heartbeatPools dt s.texturePools).2
        ++ (heartbeatPools dt s.bufferPools).2) := by
    simp [TransientResources.update]
  rw [h] at hc
  exact List.mem_of_mem_filter hc

theorem extSafe_update {s : TransientResources} {x : Nat} (dt : Rat)
    (hm : s.mentionsB x = false) : (s.update dt).mentionsB x = false := by
  obtain ⟨ht, hb, htp, hbp, hd⟩ := (mentionsB_false_iff s x).mp hm
  have hdeadT : ∀ y ∈ (heartbeatPools dt s.texturePools).2, y ≠ x := by
    intro y hy
    obtain ⟨h2, b2, hb2, hy2⟩ := mem_heartbeatPools_snd hy
    obtain ⟨e0, he0, hres, _⟩ := mem_deadOfBucket hy2
    rw [← hres]
    exact htp (h2, b2) hb2 e0 he0
  have hdeadB : ∀ y ∈ (heartbeatPools dt s.bufferPools).2, y ≠ x := by
    intro y hy
    obtain ⟨h2, b2, hb2, hy2⟩ := mem_heartbeatPools_snd hy
    obtain ⟨e0, he0, hres, _⟩ := mem_deadOfBucket hy2
    rw [← hres]
    exact hbp (h2, b2) hb2 e0 he0
  rw [mentionsB_false_iff]
  refine ⟨fun hc => ht (update_textures_sub hc),
    fun hc => hb (update_buffers_sub hc), ?_, ?_, ?_⟩
  · intro p hp e2 he2
    rw [update_texturePools_eq] at hp
    obtain ⟨b0, hb0, _, hpr⟩ := mem_heartbeatPools_fst hp
    rw [hpr] at he2
    obtain ⟨e0, he0, heq, _⟩ := mem_processBucket he2
    have hres : e2.resource = e0.resource := by rw [← heq]; rfl
    rw [hres]
    exact htp (p.1, b0) hb0 e0 he0
  · intro p hp e2 he2
    rw [update_bufferPools_eq] at hp
    obtain ⟨b0, hb0, _, hpr⟩ := mem_heartbeatPools_fst hp
    rw [hpr] at he2
    obtain ⟨e0, he0, heq, _⟩ := mem_processBucket he2
    have hres : e2.resource = e0.resource := by rw [← heq]; rfl
    rw [hres]
    exact hbp (p.1, b0) hb0 e0 he0
  · rw [update_destroyed_eq]
    intro hc
    rcases List.mem_append.mp hc with hc2 | hc2
    · rcases List.mem_append.mp hc2 with hc3 | hc3
      · exact hd hc3
      · exact hdeadT x hc3 rfl
    · exact hdeadB x hc2 rfl

end VGFW

namespace VGFW

theorem extFree_materializeNode {g : FrameGraph} {ext : Nat} {st : ExecState}
    (r : Nat) (h : ExtFree g ext st) : ExtFree g ext (materializeNode g st r) := by
  obtain ⟨hm, hx, hmat⟩ := h
  cases hget : g.nodes[r]? with
  | none =>
    rw [materializeNode, hget]
    exact ⟨hm, hx, hmat⟩
  | some n =>
    cases himp : n.importedId with
    | some e =>
      rw [materializeNode, hget]
      simp only [himp]
      refine ⟨hm, hx, ?_⟩
      intro p hp n2 hget2 himp2
      rcases List.mem_append.mp hp with hp2 | hp2
      · exact hmat p hp2 n2 hget2 himp2
      · obtain rfl := List.mem_singleton.mp hp2
        have hget3 : g.nodes[r]? = some n2 := hget2
        rw [hget] at hget3
        injection hget3 with hn
        rw [← hn, himp] at himp2
        exact absurd himp2 (by simp)
    | none =>
      cases hdesc : n.desc with
      | texture d =>
        rw [materializeNode, hget]
        simp only [himp, hdesc]
        obtain ⟨hm2, hx2, hres⟩ := extSafe_acquireTexture d hm hx
        refine ⟨hm2, hx2, ?_⟩
        intro p hp n2 hget2 himp2
        rcases List.mem_append.mp hp with hp2 | hp2
        · exact hmat p hp2 n2 hget2 himp2
        · obtain rfl := List.mem_singleton.mp hp2
          exact hres
      | buffer d =>
        rw [materializeNode, hget]
        simp only [himp, hdesc]
        obtain ⟨hm2, hx2, hres⟩ := extSafe_acquireBuffer d hm hx
        refine ⟨hm2, hx2, ?_⟩
        intro p hp n2 hget2 himp2
        rcases List.mem_append.mp hp with hp2 | hp2
        · exact hmat p hp2 n2 hget2 himp2
        · obtain rfl := List.mem_singleton.mp hp2
          exact hres

theorem extFree_releaseNode {g : FrameGraph} {ext : Nat} {st : ExecState}
    (r : Nat) (h : ExtFree g ext st) : ExtFree g ext (releaseNode g st r) := by
  obtain ⟨hm, hx, hmat⟩ := h
  cases hget : g.nodes[r]? with
  | none =>
    rw [releaseNode, hget]
    exact ⟨hm, hx, hmat⟩
  | some n =>
    by_cases himp : n.importedId.isSome
    · rw [releaseNode, hget]
      simp only [if_pos himp]
      exact ⟨hm, hx, hmat⟩
    · cases hfind : st.materialized.find? (fun p => p.1 == r) with
      | none =>
        rw [releaseNode, hget]
        simp only [if_neg himp, hfind]
        exact ⟨hm, hx, hmat⟩
      | some m =>
        have hmem := List.mem_of_find?_eq_some hfind
        have hmr : m.1 = r := by
          have h2 := List.find?_some hfind
          simpa using h2
        have himpn : n.importedId = none := Option.not_isSome_iff_eq_none.mp himp
        have hne : m.2 ≠ ext := hmat m hmem n (by rw [hmr]; exact hget) himpn
        cases hdesc : n.desc with
        | texture d =>
          rw [releaseNode, hget]
          simp only [if_neg himp, hfind, hdesc]
          exact ⟨extSafe_releaseTexture d m.2 hm hne, hx, hmat⟩
        | buffer d =>
          rw [releaseNode, hget]
          simp only [if_neg himp, hfind, hdesc]
          exact ⟨extSafe_releaseBuffer d m.2 hm hne, hx, hmat⟩

theorem extFree_foldl_materialize {g : FrameGraph} {ext : Nat} (l : List Nat)
    (st : ExecState) (h : ExtFree g ext st) :
    ExtFree g ext (l.foldl (materializeNode g) st) := by
  induction l generalizing st with
  | nil => exact h
  | cons r l ih =>
    rw [List.foldl_cons]
    exact ih _ (extFree_materializeNode r h)

theorem extFree_foldl_release {g : FrameGraph} {ext : Nat} (l : List Nat)
    (st : ExecState) (h : ExtFree g ext st) :
    ExtFree g ext (l.foldl (releaseNode g) st) := by
  induction l generalizing st with
  | nil => exact h
  | cons r l ih =>
    rw [List.foldl_cons]
    exact ih _ (extFree_releaseNode r h)

theorem extFree_execPass {g : FrameGraph} {ext : Nat} {st : ExecState}
    (i : Nat) (h : ExtFree g ext st) : ExtFree g ext (execPass g st i) := by
  by_cases hkept : (keptPasses g).contains i
  · simp only [execPass, if_pos hkept]
    apply extFree_foldl_release
    have h1 := extFree_foldl_materialize
      ((List.range g.nodes.length).filter
        (fun r => ((g.nodes[r]?).map (fun n => n.creator == i)).getD false)) st h
    exact ⟨h1.1, h1.2.1, h1.2.2⟩
  · simp only [execPass, if_neg hkept]
    exact h

theorem extFree_foldl_execPass {g : FrameGraph} {ext : Nat} (l : List Nat)
    (st : ExecState) (h : ExtFree g ext st) :
    ExtFree g ext (l.foldl (execPass g) st) := by
  induction l generalizing st with
  | nil => exact h
  | cons i l ih =>
    rw [List.foldl_cons]
    exact ih _ (extFree_execPass i h)

theorem extFree_execute (g : FrameGraph) (s0 : TransientResources) {ext : Nat}
    (hm : s0.mentionsB ext = false) (hx : ext < s0.nextId) :
    ExtFree g ext (g.execute s0) :=
  extFree_foldl_execPass _ _ ⟨hm, hx, by simp⟩

end VGFW

namespace VGFW

/-- Claim C9 (import passthrough): an imported resource node carries a
caller-owned device object; provided that object is not one of the pool-owned
objects (distinct heap identity), executing any graph leaves it out of every
free bucket, out of the owned lists and the destroyed log, the destructor of
TransientResources does not destroy it, and a following heartbeat does not
evict or destroy it. -/
theorem import_passthrough (g : FrameGraph) (s0 : TransientResources)
    (i ext : Nat) (n : ResNode) (dt : Rat)
    (hget : g.nodes[i]? = some n) (himp : n.importedId = some ext)
    (hm : s0.mentionsB ext = false) (hx : ext < s0.nextId) :
    (g.execute s0).res.mentionsB ext = false
    ∧ ext ∉ (g.execute s0).res.destructorDestroys
    ∧ ext ∉ ((g.execute s0).res.update dt).destroyed := by
  obtain ⟨hm2, hx2, _⟩ := extFree_execute g s0 hm hx
  obtain ⟨ht, hb, htp, hbp, hd⟩ := (mentionsB_false_iff _ _).mp hm2
  refine ⟨hm2, ?_, ?_⟩
  · rw [TransientResources.destructorDestroys]
    intro hc
    rcases List.mem_append.mp hc with hc | hc
    · exact ht hc
    · exact hb hc
  · have hm3 := extSafe_update dt hm2
    obtain ⟨_, _, _, _, hd3⟩ := (mentionsB_false_iff _ _).mp hm3
    exact hd3

/-- Witness for C9 at a concrete input: the demo import graph whose single
node carries external object 3, executed against a pool whose fresh counter
is already at 5 and which owns nothing. -/
theorem import_passthrough_witness :
    demoGraphImport.nodes[0]?
      = some { creator := 0, desc := .texture demoTexDesc, importedId := some 3 }
    ∧ demoPoolState.mentionsB 3 = false
    ∧ (3 : Nat) < demoPoolState.nextId
    ∧ (demoGraphImport.execute demoPoolState).res.mentionsB 3 = false
    ∧ (3 : Nat) ∉ (demoGraphImport.execute demoPoolState).res.destructorDestroys := by
  have h := import_passthrough demoGraphImport demoPoolState 0 3
    { creator := 0, desc := .texture demoTexDesc, importedId := some 3 } 1
    (by decide) (by decide) (by decide) (by decide)
  exact ⟨by decide, by decide, by decide, h.1, h.2.1⟩

end VGFW
